import Mathlib

/-!
# NLPS script language: shallow embedding and verification

This file embeds the tokenizer (`src/nlps/lexer.py`), the recursive-descent
parser (`src/nlps/parser.py`) and the tree-walking interpreter
(`src/nlps/interpreter.py`) of the NLPS script language, and proves a set of
claims about them.

Modelling conventions:
* Python dicts (`variables`, `functions`, `environment`) are association
  lists with in-place update (`setk`) and first-match lookup (`getk`).
* Python exceptions are an explicit result type `Res` carrying the state of
  the interpreter object at the point the exception propagates; `Res.nofuel`
  marks exhaustion of the step budget (a diverging run), never an error of
  the program.
* Host facilities are fields of the interpreter state: the filesystem is the
  set of existing directory/file paths (`fsDirs`, `fsFiles`), the OS working
  directory is `osCwd`, standard output/error are `stdout`/`stderr` line
  lists, and the host environment is the `environment` association list that
  `Interpreter.__init__` copies from `os.environ`.
* Source line/column bookkeeping, used by the Python code only inside error
  message text, is omitted; error messages otherwise follow the source.
* `parallel` blocks (a thread pool over shared interpreter state) are
  modelled by the submission-order schedule: children run one after the
  other against the shared state, each child's exception is caught and
  collected, and collected errors are printed once all children finished,
  mirroring `Interpreter.execute_parallel`.
* Python `float` literals are carried as their raw text and are outside the
  scope of every claim; comparisons on them are modelled as errors.
-/

namespace NLPS

/-! ## Association lists (model of Python dict) -/

/-- First-match lookup, the model of `d[k]` / `k in d`. -/
def getk {α : Type} : List (String × α) → String → Option α
  | [], _ => none
  | (k', v') :: rest, k => if k' = k then some v' else getk rest k

/-- In-place update-or-append, the model of `d[k] = v`. -/
def setk {α : Type} : List (String × α) → String → α → List (String × α)
  | [], k, v => [(k, v)]
  | (k', v') :: rest, k, v =>
      if k' = k then (k, v) :: rest else (k', v') :: setk rest k v

/-! ## Runtime values -/

/-- Host family, from `os.name` (`'nt'` vs anything else). -/
inductive HostOS where
  | windows
  | unix
deriving DecidableEq, Repr

/-- Python numbers as produced by `Parser.parse_primary`: `int(val)` for a
bare digit run, `float(val)` when the literal contains a dot.  Floats are
kept as their raw literal text; no claim observes float arithmetic. -/
inductive NumVal where
  | int (n : Int)
  | float (raw : String)
deriving DecidableEq, Repr

/-- The dynamically-typed runtime value: `str`, number, `bool`, `list`, or
Python `None` (the value of every function call used as an expression). -/
inductive Value where
  | str (s : String)
  | num (n : NumVal)
  | bool (b : Bool)
  | list (xs : List Value)
  | none
deriving Repr

mutual

/-- Python `repr`, used for elements when a list is stringified.  String
quoting is modelled in the common single-quote form. -/
def pyRepr : Value → String
  | .str s => "'" ++ s ++ "'"
  | .num (.int n) => toString n
  | .num (.float raw) => raw
  | .bool b => if b then "True" else "False"
  | .list xs => "[" ++ String.intercalate ", " (pyReprList xs) ++ "]"
  | .none => "None"

/-- `repr` of each element of a list. -/
def pyReprList : List Value → List String
  | [] => []
  | v :: vs => pyRepr v :: pyReprList vs

end

/-- Python `str(value)`, used when mirroring a value into the environment
map and when substituting a variable into a string. -/
def pyStr : Value → String
  | .str s => s
  | .num (.int n) => toString n
  | .num (.float raw) => raw
  | .bool b => if b then "True" else "False"
  | .list xs => "[" ++ String.intercalate ", " (pyReprList xs) ++ "]"
  | .none => "None"

/-- Python type name, used in the `Cannot iterate over ...` message. -/
def pyTypeName : Value → String
  | .str _ => "str"
  | .num (.int _) => "int"
  | .num (.float _) => "float"
  | .bool _ => "bool"
  | .list _ => "list"
  | .none => "NoneType"

/-- Decimal digit run with at least one nonzero digit (exact truthiness of a
float literal, which the lexer restricts to `digits [. digits]`). -/
def hasNonZeroDigit (s : String) : Bool :=
  s.data.any fun c => c.isDigit && c ≠ '0'

/-- Python truthiness, the model of `if condition:`. -/
def pyTruthy : Value → Bool
  | .str s => s ≠ ""
  | .num (.int n) => n ≠ 0
  | .num (.float raw) => hasNonZeroDigit raw
  | .bool b => b
  | .list xs => ¬ xs.isEmpty
  | .none => false

mutual

/-- Python `==` on runtime values: numbers compare numerically with `bool`
coerced to `int`, strings and lists structurally, mixed kinds are unequal
(never an error).  Float literals compare by raw text (model boundary). -/
def pyEq : Value → Value → Bool
  | .num (.int a), .num (.int b) => a = b
  | .num (.float a), .num (.float b) => a = b
  | .bool a, .num (.int b) => (if a then (1 : Int) else 0) = b
  | .num (.int a), .bool b => a = (if b then (1 : Int) else 0)
  | .bool a, .bool b => a = b
  | .str a, .str b => a = b
  | .list a, .list b => pyEqList a b
  | .none, .none => true
  | _, _ => false

/-- Elementwise `==` of two lists. -/
def pyEqList : List Value → List Value → Bool
  | [], [] => true
  | a :: as_, b :: bs => pyEq a b && pyEqList as_ bs
  | _, _ => false

end

/-- Python `<` / `>` operands coerced to `Int` where defined (`bool` is an
`int` in Python). -/
def asIntVal : Value → Option Int
  | .num (.int n) => some n
  | .bool b => some (if b then 1 else 0)
  | _ => Option.none

/-- The comparison step of `Interpreter.evaluate`: apply `>`, `<` or `==`
to the two evaluated operands; an unsupported ordered comparison is a
`TypeError` and an unknown operator the interpreter's own error.  Ordered
comparison of floats and lists is a model boundary (error). -/
def evalCompare (op : String) (l r : Value) : Except String Value :=
  if op = ">" then
    match asIntVal l, asIntVal r with
    | some a, some b => .ok (.bool (decide (a > b)))
    | _, _ =>
      match l, r with
      | .str a, .str b => .ok (.bool (decide (a > b)))
      | _, _ => .error ("TypeError: '>' not supported between instances of '"
          ++ pyTypeName l ++ "' and '" ++ pyTypeName r ++ "'")
  else if op = "<" then
    match asIntVal l, asIntVal r with
    | some a, some b => .ok (.bool (decide (a < b)))
    | _, _ =>
      match l, r with
      | .str a, .str b => .ok (.bool (decide (a < b)))
      | _, _ => .error ("TypeError: '<' not supported between instances of '"
          ++ pyTypeName l ++ "' and '" ++ pyTypeName r ++ "'")
  else if op = "==" then .ok (.bool (pyEq l r))
  else .error ("Unknown operator: " ++ op)

/-! ## Interpolation spans (`Parser.create_string_literal`)

`create_string_literal` scans a string's raw text with the regular
expression `\$\{(\w+|@|#)\}` and records a `(start, end, name)` triple per
match; `re.finditer` yields non-overlapping matches left to right. -/

/-- `\w` of the pattern (ASCII model). -/
def isWordChar (c : Char) : Bool :=
  c.isAlphanum || c = '_'

/-- Try to read `name}` (with `name` = `\w+`, `@` or `#`, per the regex
alternation) at the head of the character list; returns the name and the
characters after the `}`. -/
def readName (l : List Char) : Option (String × List Char) :=
  let w := l.takeWhile isWordChar
  if w.isEmpty then
    match l with
    | '@' :: '}' :: r => some ("@", r)
    | '#' :: '}' :: r => some ("#", r)
    | _ => Option.none
  else
    match l.dropWhile isWordChar with
    | '}' :: r => some (String.mk w, r)
    | _ => Option.none

/-- All `${name}` spans of a character list, scanning from text offset `i`:
the model of the `re.finditer` loop in `create_string_literal`.  Where the
pattern does not match, scanning resumes one character further on.  The
first argument is a step budget (one unit per character examined), made
large enough by the caller; it makes the recursion structural. -/
def findInterps : Nat → List Char → Nat → List (Nat × Nat × String)
  | 0, _, _ => []
  | _ + 1, [], _ => []
  | fu + 1, c :: rest, i =>
      if c = '$' ∧ rest.head? = some '{' then
        match readName rest.tail with
        | some (name, rest') =>
            (i, i + name.length + 3, name)
              :: findInterps fu rest' (i + name.length + 3)
        | Option.none => findInterps fu rest (i + 1)
      else findInterps fu rest (i + 1)

/-! ## Substitution: implemented order and the naive oracle -/

/-- One substitution step `result[:start] + replacement + result[end:]`. -/
def applyOne (l : List Char) (start stop : Nat) (repl : List Char) :
    List Char :=
  l.take start ++ repl ++ l.drop stop

/-- The implemented strategy (`Interpreter.evaluate`, `StringLiteral` case):
apply the recorded spans in reverse (descending-offset) order, each against
the current result string.  `substDesc (sp :: rest) s` applies `sp` last,
exactly as the Python loop `for start, end, var_name in reversed(...)`. -/
def substDesc (ρ : String → List Char) :
    List (Nat × Nat × String) → List Char → List Char
  | [], s => s
  | (st, en, nm) :: rest, s => applyOne (substDesc ρ rest s) st en (ρ nm)

/-- Modelled from the spec: the naive oracle, "a naive single left-to-right
pass that accounts for the offset shifts caused by earlier replacements".
Spans are visited in ascending order; each is applied at its recorded
offsets shifted by the accumulated length difference of the replacements
already made. -/
def naiveLR (ρ : String → List Char) :
    List Char → Int → List (Nat × Nat × String) → List Char
  | s, _, [] => s
  | s, sh, (st, en, nm) :: rest =>
      let r := ρ nm
      let s' := applyOne s ((st : Int) + sh).toNat ((en : Int) + sh).toNat r
      naiveLR ρ s' (sh + (r.length : Int) - ((en : Int) - (st : Int))) rest

/-- Segment form of the substitution, the common reduct of the two
strategies: emit the untouched text between consecutive spans and each
replacement, left to right over the original string. -/
def segPass (ρ : String → List Char) (s : List Char) :
    Nat → List (Nat × Nat × String) → List Char
  | pos, [] => s.drop pos
  | pos, (st, en, nm) :: rest =>
      (s.drop pos).take (st - pos) ++ ρ nm ++ segPass ρ s en rest

/-- Well-formed span lists: chained between `lo` and `hi` (each span starts
no earlier than `lo` and than the previous span's end, and ends by `hi`). -/
def spansWF : Nat → Nat → List (Nat × Nat × String) → Prop
  | lo, hi, [] => lo ≤ hi
  | lo, hi, (st, en, _) :: rest => lo ≤ st ∧ st ≤ en ∧ spansWF en hi rest

/-! ## AST (`parser.py` dataclasses) -/

/-- The index of an `ArgRef`: a number for `$1`, `$2`, ..., `@` for `$@`
and `#` for `$#`.  `Interpreter.evaluate` treats the numeric index as an
arbitrary `int`. -/
inductive ArgIx where
  | pos (n : Int)
  | all
  | count
deriving Repr

/-- Expression nodes.  `stringLit` carries the raw text and the recorded
interpolation spans, as `StringLiteral` does. -/
inductive Expr where
  | stringLit (value : String) (interpolations : List (Nat × Nat × String))
  | numberLit (value : NumVal)
  | boolLit (value : Bool)
  | varRef (name : String)
  | specialVarRef (name : String)
  | argRef (index : ArgIx)
  | comparison (left : Expr) (operator : String) (right : Expr)
  | arrayLit (elements : List Expr)
  | functionCall (name : String) (args : List Expr)
deriving Repr

/-- Statement nodes.  `runCommand` has exactly one field, the deferred
command string, mirroring the `RunCommand` dataclass of `parser.py`
(lines 36–38), which declares no `detach` field. -/
inductive Stmt where
  | assignment (name : String) (value : Expr)
  | runCommand (command : Expr)
  | cdCommand (path : Expr)
  | ifStatement (condition : Expr) (thenBlock : List Stmt)
      (elseBlock : Option (List Stmt))
  | forLoop (varName : String) (iterable : Expr) (body : List Stmt)
  | functionDef (name : String) (params : List String) (body : List Stmt)
  | functionCallStmt (name : String) (args : List Expr)
  | osBlock (osName : String) (body : List Stmt)
  | parallelBlock (body : List Stmt)
deriving Repr

/-- A registered function: parameter names and body (`FunctionDef`). -/
structure FuncDef where
  params : List String
  body : List Stmt
deriving Repr

/-! ## Interpreter state -/

/-- The interpreter object's mutable state together with its model of the
host: filesystem, OS working directory, output streams. -/
structure InterpState where
  /-- Parent directory of the resolved script path (`SCRIPT_DIR`). -/
  scriptDir : String
  /-- Invocation arguments. -/
  args : List String
  /-- `self.variables` (the name `variables` is a reserved word in Lean). -/
  vars : List (String × Value)
  /-- `self.functions`. -/
  functions : List (String × FuncDef)
  /-- `self.cwd`, the logical working directory. -/
  cwd : String
  /-- The OS process's actual working directory (target of `os.chdir`). -/
  osCwd : String
  /-- `self.environment`. -/
  environment : List (String × String)
  /-- `Path.home()` of the host. -/
  home : String
  /-- Host family (`os.name`). -/
  host : HostOS
  /-- Existing directories of the host filesystem (resolved paths). -/
  fsDirs : List String
  /-- Existing non-directory files of the host filesystem. -/
  fsFiles : List String
  /-- Lines printed to standard output. -/
  stdout : List String
  /-- Lines printed to standard error. -/
  stderr : List String
deriving Repr

/-- `Interpreter.__init__`: fresh variable and function maps, the logical
cwd mirroring the process cwd, and the environment map initialized to a
copy of the host process environment (`os.environ.copy()`). -/
def initState (scriptDir : String) (args : List String)
    (hostEnv : List (String × String)) (processCwd home : String)
    (host : HostOS) (fsDirs fsFiles : List String) : InterpState :=
  { scriptDir := scriptDir
    args := args
    vars := []
    functions := []
    cwd := processCwd
    osCwd := processCwd
    environment := hostEnv
    home := home
    host := host
    fsDirs := fsDirs
    fsFiles := fsFiles
    stdout := []
    stderr := [] }

/-- `Interpreter.get_special_var`, for the five known names; `none` models
the `Unknown special variable` error. -/
def getSpecialVar (st : InterpState) (name : String) : Option String :=
  if name = "CWD" then some st.cwd
  else if name = "HOME" then some st.home
  else if name = "NLPM_HOME" then some (st.home ++ "/.nlpm")
  else if name = "SCRIPT_DIR" then some st.scriptDir
  else if name = "OS" then
    some (match st.host with | .windows => "windows" | .unix => "unix")
  else Option.none

/-- Python `str.isdigit` (ASCII model): nonempty and all digits. -/
def isAllDigits (s : String) : Bool :=
  ¬ s.data.isEmpty && s.data.all Char.isDigit

/-- Numeric value of a digit run (`int(name)`). -/
def digitsToNat (s : String) : Nat :=
  s.data.foldl (fun acc c => 10 * acc + (c.toNat - '0'.toNat)) 0

/-- Resolution of one interpolation span name, in the order implemented by
the `StringLiteral` case of `Interpreter.evaluate`: `@`, `#`, all-digit
positional (empty string when out of range), bound variable (stringified),
special variable, and finally the unsubstituted `${name}` text. -/
def resolveSpanText (st : InterpState) (name : String) : String :=
  if name = "@" then String.intercalate " " st.args
  else if name = "#" then toString st.args.length
  else if isAllDigits name then
    let n := digitsToNat name
    if 1 ≤ n ∧ n ≤ st.args.length then st.args.getD (n - 1) "" else ""
  else
    match getk st.vars name with
    | some v => pyStr v
    | Option.none =>
        match getSpecialVar st name with
        | some s => s
        | Option.none => "$\x7b" ++ name ++ "\x7d"

/-- The full interpolation of a string literal's raw text: recorded spans
applied in descending-offset order (`reversed(expr.interpolations)`). -/
def applyInterpolationsRaw (st : InterpState) (value : String)
    (interps : List (Nat × Nat × String)) : String :=
  String.mk (substDesc (fun nm => (resolveSpanText st nm).data) interps
    value.data)

/-- Modelled from the spec: the naive left-to-right oracle applied to the
same string literal, for the refinement comparison. -/
def applyInterpolationsNaive (st : InterpState) (value : String)
    (interps : List (Nat × Nat × String)) : String :=
  String.mk (naiveLR (fun nm => (resolveSpanText st nm).data) value.data 0
    interps)

/-- `Path.resolve()`-style normalization of an absolute posix path:
split on `/`, drop empty and `.` segments, pop on `..`. -/
def normalizeSegs : List String → List String → List String
  | acc, [] => acc.reverse
  | acc, seg :: rest =>
      if seg = "" ∨ seg = "." then normalizeSegs acc rest
      else if seg = ".." then normalizeSegs (acc.tail) rest
      else normalizeSegs (seg :: acc) rest

/-- Split a character list at `/` separators. -/
def splitSlash : List Char → List Char → List String
  | acc, [] => [String.mk acc.reverse]
  | acc, '/' :: rest => String.mk acc.reverse :: splitSlash [] rest
  | acc, c :: rest => splitSlash (c :: acc) rest

/-- The `cd` path computation: a relative path is joined to the logical
cwd, then the result is normalized (posix model of `Path.resolve()`). -/
def resolvePath (cwd path : String) : String :=
  let joined := if path.data.head? = some '/' then path
    else cwd ++ "/" ++ path
  "/" ++ String.intercalate "/" (normalizeSegs [] (splitSlash [] joined.data))

/-- Outcome of an interpreter step: normal result, propagating exception
(with the interpreter object's state at the raise point), or exhaustion of
the step budget. -/
inductive Res (α : Type) where
  | ok (v : α) (st : InterpState)
  | err (msg : String) (st : InterpState)
  | nofuel
deriving Repr

/-- The state a finished step left behind, if it finished. -/
def Res.state? {α : Type} : Res α → Option InterpState
  | .ok _ st => some st
  | .err _ st => some st
  | .nofuel => Option.none

/-- Scope restoration after a function call (`call_function`'s `finally`):
the variable map is reset to the pre-call snapshot; environment keys
introduced during the call (absent from the snapshot) are appended to the
snapshot with their call-exit values. -/
def restoreScope (oldVars : List (String × Value))
    (oldEnv : List (String × String)) (stE : InterpState) : InterpState :=
  { stE with
      vars := oldVars
      environment :=
        oldEnv ++ stE.environment.filter fun kv => (getk oldEnv kv.1).isNone }

/-- The echo-line tag of `execute_run` would print here; `execute_run`
first evaluates the command and then reads `stmt.detach`, an attribute the
parser's `RunCommand` does not define, so every `run` statement raises
`AttributeError` before printing anything. -/
def runDetachError : String :=
  "'RunCommand' object has no attribute 'detach'"

mutual

/-- `Interpreter.evaluate`. -/
def evaluate : Nat → InterpState → Expr → Res Value
  | 0, _, _ => .nofuel
  | _ + 1, st, .stringLit v interps =>
      .ok (.str (applyInterpolationsRaw st v interps)) st
  | _ + 1, st, .numberLit n => .ok (.num n) st
  | _ + 1, st, .boolLit b => .ok (.bool b) st
  | _ + 1, st, .varRef name =>
      match getk st.vars name with
      | some v => .ok v st
      | Option.none => .err ("Undefined variable: " ++ name) st
  | _ + 1, st, .specialVarRef name =>
      match getSpecialVar st name with
      | some s => .ok (.str s) st
      | Option.none => .err ("Unknown special variable: " ++ name) st
  | _ + 1, st, .argRef ix =>
      match ix with
      | .all => .ok (.list (st.args.map .str)) st
      | .count => .ok (.num (.int st.args.length)) st
      | .pos n =>
          if n - 1 < 0 ∨ n - 1 ≥ (st.args.length : Int) then .ok (.str "") st
          else .ok (.str (st.args.getD (n - 1).toNat "")) st
  | f + 1, st, .comparison l op r =>
      match evaluate f st l with
      | .ok lv st₁ =>
          match evaluate f st₁ r with
          | .ok rv st₂ =>
              match evalCompare op lv rv with
              | .ok v => .ok v st₂
              | .error m => .err m st₂
          | .err m st₂ => .err m st₂
          | .nofuel => .nofuel
      | .err m st₁ => .err m st₁
      | .nofuel => .nofuel
  | f + 1, st, .arrayLit es =>
      match evalList f st es with
      | .ok vs st₁ => .ok (.list vs) st₁
      | .err m st₁ => .err m st₁
      | .nofuel => .nofuel
  | f + 1, st, .functionCall name args => callFunction f st name args

/-- Elementwise evaluation of an array literal. -/
def evalList : Nat → InterpState → List Expr → Res (List Value)
  | 0, _, _ => .nofuel
  | _ + 1, st, [] => .ok [] st
  | f + 1, st, e :: es =>
      match evaluate f st e with
      | .ok v st₁ =>
          match evalList f st₁ es with
          | .ok vs st₂ => .ok (v :: vs) st₂
          | .err m st₂ => .err m st₂
          | .nofuel => .nofuel
      | .err m st₁ => .err m st₁
      | .nofuel => .nofuel

/-- `Interpreter.execute_statement`. -/
def execStmt : Nat → InterpState → Stmt → Res Unit
  | 0, _, _ => .nofuel
  | f + 1, st, .assignment name value =>
      match evaluate f st value with
      | .ok v st₁ =>
          .ok () { st₁ with
            vars := setk st₁.vars name v
            environment := setk st₁.environment name (pyStr v) }
      | .err m st₁ => .err m st₁
      | .nofuel => .nofuel
  | f + 1, st, .runCommand command =>
      -- execute_run: the command is evaluated (line 192), then the access
      -- to the missing `stmt.detach` attribute (line 194) raises, so no
      -- echo line is printed and no process is spawned.
      match evaluate f st command with
      | .ok _ st₁ => .err runDetachError st₁
      | .err m st₁ => .err m st₁
      | .nofuel => .nofuel
  | f + 1, st, .cdCommand path =>
      match evaluate f st path with
      | .ok v st₁ =>
          match v with
          | .str p =>
              let resolved := resolvePath st₁.cwd p
              if resolved ∈ st₁.fsDirs ∨ resolved ∈ st₁.fsFiles then
                if resolved ∈ st₁.fsDirs then
                  .ok () { st₁ with cwd := resolved, osCwd := resolved }
                else .err ("Not a directory: " ++ p) st₁
              else .err ("Directory does not exist: " ++ p) st₁
          | _ =>
              .err "TypeError: argument should be a str or an os.PathLike object"
                st₁
      | .err m st₁ => .err m st₁
      | .nofuel => .nofuel
  | f + 1, st, .ifStatement cond thenBlock elseBlock =>
      match evaluate f st cond with
      | .ok v st₁ =>
          if pyTruthy v then execStmts f st₁ thenBlock
          else
            match elseBlock with
            | some blk => execStmts f st₁ blk
            | Option.none => .ok () st₁
      | .err m st₁ => .err m st₁
      | .nofuel => .nofuel
  | f + 1, st, .forLoop varName iterable body =>
      match evaluate f st iterable with
      | .ok v st₁ =>
          match v with
          | .list xs => forIter f st₁ varName xs body
          | other => .err ("Cannot iterate over " ++ pyTypeName other) st₁
      | .err m st₁ => .err m st₁
      | .nofuel => .nofuel
  | _ + 1, st, .functionDef name params body =>
      .ok () { st with functions := setk st.functions name ⟨params, body⟩ }
  | f + 1, st, .functionCallStmt name args =>
      match callFunction f st name args with
      | .ok _ st₁ => .ok () st₁
      | .err m st₁ => .err m st₁
      | .nofuel => .nofuel
  | f + 1, st, .osBlock osName body =>
      let current := match st.host with
        | .windows => "windows"
        | .unix => "unix"
      if osName = current then execStmts f st body else .ok () st
  | f + 1, st, .parallelBlock body =>
      match parLoop f st body [] with
      | some (st₁, errs) =>
          .ok () { st₁ with
            stdout := st₁.stdout
              ++ errs.map fun m => "[nlps] Parallel execution error: " ++ m }
      | Option.none => .nofuel

/-- `Interpreter.execute`: a statement list in order, stopping at the
first propagating exception. -/
def execStmts : Nat → InterpState → List Stmt → Res Unit
  | 0, _, _ => .nofuel
  | _ + 1, st, [] => .ok () st
  | f + 1, st, s :: rest =>
      match execStmt f st s with
      | .ok _ st₁ => execStmts f st₁ rest
      | .err m st₁ => .err m st₁
      | .nofuel => .nofuel

/-- The `for` loop body: bind the loop variable (and its environment
mirror) to each element in order and run the body in the shared scope. -/
def forIter : Nat → InterpState → String → List Value → List Stmt → Res Unit
  | 0, _, _, _, _ => .nofuel
  | _ + 1, st, _, [], _ => .ok () st
  | f + 1, st, varName, x :: xs, body =>
      let st' := { st with
        vars := setk st.vars varName x
        environment := setk st.environment varName (pyStr x) }
      match execStmts f st' body with
      | .ok _ st₁ => forIter f st₁ varName xs body
      | .err m st₁ => .err m st₁
      | .nofuel => .nofuel

/-- `Interpreter.execute_parallel`, under the submission-order schedule:
each child statement runs against the shared state with its exception
caught and collected; the collected messages are returned once every child
has finished. -/
def parLoop : Nat → InterpState → List Stmt → List String →
    Option (InterpState × List String)
  | 0, _, _, _ => Option.none
  | _ + 1, st, [], errs => some (st, errs)
  | f + 1, st, s :: rest, errs =>
      match execStmt f st s with
      | .ok _ st₁ => parLoop f st₁ rest errs
      | .err m st₁ => parLoop f st₁ rest (errs ++ [m])
      | .nofuel => Option.none

/-- `Interpreter.call_function`: lookup, exact-arity check, snapshot of
the variable and environment maps, argument binding and body execution,
and the `finally` scope restoration (also on error). -/
def callFunction : Nat → InterpState → String → List Expr → Res Value
  | 0, _, _, _ => .nofuel
  | f + 1, st, name, args =>
      match getk st.functions name with
      | Option.none => .err ("Undefined function: " ++ name) st
      | some func =>
          if args.length ≠ func.params.length then
            .err ("Function '" ++ name ++ "' expects "
              ++ toString func.params.length ++ " arguments, got "
              ++ toString args.length) st
          else
            match bindAndRun f st func.params args func.body with
            | .ok _ stE => .ok Value.none (restoreScope st.vars st.environment stE)
            | .err m stE => .err m (restoreScope st.vars st.environment stE)
            | .nofuel => .nofuel

/-- The `try` block of `call_function`: bind arguments to parameters,
then execute the body. -/
def bindAndRun : Nat → InterpState → List String → List Expr →
    List Stmt → Res Unit
  | 0, _, _, _, _ => .nofuel
  | f + 1, st, params, args, body =>
      match bindParams f st params args with
      | .ok _ st₁ => execStmts f st₁ body
      | .err m st₁ => .err m st₁
      | .nofuel => .nofuel

/-- Parameter binding (`zip(func.params, call.args)`): evaluate each
argument in the current scope, bind it and mirror it into the
environment. -/
def bindParams : Nat → InterpState → List String → List Expr → Res Unit
  | 0, _, _, _ => .nofuel
  | f + 1, st, p :: ps, a :: as_ =>
      match evaluate f st a with
      | .ok v st₁ =>
          bindParams f
            { st₁ with
              vars := setk st₁.vars p v
              environment := setk st₁.environment p (pyStr v) } ps as_
      | .err m st₁ => .err m st₁
      | .nofuel => .nofuel
  | _ + 1, st, _, _ => .ok () st

end

/-- The state `call_function`'s `finally` block sees (the call-exit
state), when the call ran to its `finally` at all. -/
def callExit (fuel : Nat) (st : InterpState) (name : String)
    (args : List Expr) : Option InterpState :=
  match fuel with
  | 0 => Option.none
  | f + 1 =>
      match getk st.functions name with
      | Option.none => Option.none
      | some func =>
          if args.length ≠ func.params.length then Option.none
          else
            match bindAndRun f st func.params args func.body with
            | .ok _ stE => some stE
            | .err _ stE => some stE
            | .nofuel => Option.none

/-! ## Lexer (`lexer.py`) -/

/-- Token kinds (`TokenType`); `argMarker` renders the source's
positional/aggregate argument marker kind. -/
inductive TokType where
  | string
  | number
  | bool
  | identifier
  | varRef
  | kwRun
  | kwIf
  | kwElse
  | kwFor
  | kwIn
  | kwFn
  | kwCd
  | kwOn
  | kwParallel
  | cwd
  | home
  | nlpmHome
  | scriptDir
  | os
  | argMarker
  | assign
  | gt
  | lt
  | eq
  | lbrace
  | rbrace
  | lparen
  | rparen
  | lbracket
  | rbracket
  | comma
  | comment
  | newline
  | eof
  | interpStart
deriving DecidableEq, Repr

/-- The `TokenType` enum member names, used inside parser error text. -/
def typeName : TokType → String
  | .string => "STRING"
  | .number => "NUMBER"
  | .bool => "BOOL"
  | .identifier => "IDENTIFIER"
  | .varRef => "VAR_REF"
  | .kwRun => "RUN"
  | .kwIf => "IF"
  | .kwElse => "ELSE"
  | .kwFor => "FOR"
  | .kwIn => "IN"
  | .kwFn => "FN"
  | .kwCd => "CD"
  | .kwOn => "ON"
  | .kwParallel => "PARALLEL"
  | .cwd => "CWD"
  | .home => "HOME"
  | .nlpmHome => "NLPM_HOME"
  | .scriptDir => "SCRIPT_DIR"
  | .os => "OS"
  | .argMarker => "ARG_PREFIX"
  | .assign => "ASSIGN"
  | .gt => "GT"
  | .lt => "LT"
  | .eq => "EQ"
  | .lbrace => "LBRACE"
  | .rbrace => "RBRACE"
  | .lparen => "LPAREN"
  | .rparen => "RPAREN"
  | .lbracket => "LBRACKET"
  | .rbracket => "RBRACKET"
  | .comma => "COMMA"
  | .comment => "COMMENT"
  | .newline => "NEWLINE"
  | .eof => "EOF"
  | .interpStart => "STRING_INTERP_START"

/-- A token: kind and literal text (line/column dropped, see header). -/
structure Token where
  type : TokType
  value : String
deriving DecidableEq, Repr

/-- Keyword table (`Lexer.KEYWORDS`). -/
def keywordTok (s : String) : Option TokType :=
  if s = "run" then some .kwRun
  else if s = "if" then some .kwIf
  else if s = "else" then some .kwElse
  else if s = "for" then some .kwFor
  else if s = "in" then some .kwIn
  else if s = "fn" then some .kwFn
  else if s = "cd" then some .kwCd
  else if s = "on" then some .kwOn
  else if s = "parallel" then some .kwParallel
  else if s = "true" then some .bool
  else if s = "false" then some .bool
  else Option.none

/-- Special-variable table (`Lexer.SPECIAL_VARS`). -/
def specialVarTok (s : String) : Option TokType :=
  if s = "CWD" then some .cwd
  else if s = "HOME" then some .home
  else if s = "NLPM_HOME" then some .nlpmHome
  else if s = "SCRIPT_DIR" then some .scriptDir
  else if s = "OS" then some .os
  else Option.none

/-- Identifier characters: alphanumeric, underscore, dot, hyphen, slash
(`Lexer.read_identifier`). -/
def isIdentChar (c : Char) : Bool :=
  c.isAlphanum || c = '_' || c = '.' || c = '/' || c = '-'

/-- `Lexer.read_number`: a digit run, optionally `.` and another digit run
when a digit follows the dot. -/
def readNumber (cs : List Char) : String × List Char :=
  let intPart := cs.takeWhile Char.isDigit
  let after := cs.dropWhile Char.isDigit
  match after with
  | '.' :: d :: _ =>
      if d.isDigit then
        let frac := (after.drop 1).takeWhile Char.isDigit
        (String.mk (intPart ++ '.' :: frac), (after.drop 1).dropWhile Char.isDigit)
      else (String.mk intPart, after)
  | _ => (String.mk intPart, after)

/-- Insignificant horizontal whitespace (`Lexer.skip_whitespace`). -/
def isHWs (c : Char) : Bool :=
  c = ' ' || c = '\t' || c = '\r'

/-- The tokenize loop (`Lexer.tokenize`), fueled; one fuel unit per
emitted token.  Matches the source's dispatch order. -/
def lexLoop : Nat → List Char → Except String (List Token)
  | 0, _ => .error "lexer step budget exhausted"
  | f + 1, cs0 =>
      let cs := cs0.dropWhile isHWs
      match cs with
      | [] => .ok [⟨.eof, ""⟩]
      | c :: rest =>
          if c = '\n' then
            (lexLoop f rest).map (⟨.newline, "\n"⟩ :: ·)
          else if c = '#' then
            let txt := cs.takeWhile (· ≠ '\n')
            (lexLoop f (cs.dropWhile (· ≠ '\n'))).map (⟨.comment, String.mk txt⟩ :: ·)
          else if c = '"' ∨ c = '\'' then
            let content := rest.takeWhile (· ≠ c)
            match rest.dropWhile (· ≠ c) with
            | [] => .error "Unterminated string literal"
            | _ :: rest2 =>
                (lexLoop f rest2).map (⟨.string, String.mk content⟩ :: ·)
          else if c.isDigit then
            let (val, rest') := readNumber cs
            (lexLoop f rest').map (⟨.number, val⟩ :: ·)
          else if c = '$' then
            match rest with
            | [] => .error "Unexpected character after $"
            | d :: rest2 =>
                if d.isDigit then
                  let (val, rest') := readNumber rest
                  (lexLoop f rest').map (⟨.argMarker, val⟩ :: ·)
                else if d = '@' then
                  (lexLoop f rest2).map (⟨.argMarker, "@"⟩ :: ·)
                else if d = '#' then
                  (lexLoop f rest2).map (⟨.argMarker, "#"⟩ :: ·)
                else if d.isAlpha then
                  let name := String.mk (rest.takeWhile isIdentChar)
                  let rest' := rest.dropWhile isIdentChar
                  match specialVarTok name with
                  | some tt => (lexLoop f rest').map (⟨tt, name⟩ :: ·)
                  | Option.none =>
                      (lexLoop f rest').map (⟨.varRef, name⟩ :: ·)
                else if d = '{' then
                  (lexLoop f rest2).map (⟨.interpStart, "$\x7b"⟩ :: ·)
                else .error "Unexpected character after $"
          else if c.isAlpha || c = '_' || c = '.'
              || (c = '-' && (match rest with
                  | c2 :: _ => c2.isAlphanum || c2 = '-'
                  | [] => false)) then
            let ident := String.mk (cs.takeWhile isIdentChar)
            let rest' := cs.dropWhile isIdentChar
            match keywordTok ident with
            | some tt => (lexLoop f rest').map (⟨tt, ident⟩ :: ·)
            | Option.none => (lexLoop f rest').map (⟨.identifier, ident⟩ :: ·)
          else if c = '{' then (lexLoop f rest).map (⟨.lbrace, "\x7b"⟩ :: ·)
          else if c = '}' then (lexLoop f rest).map (⟨.rbrace, "\x7d"⟩ :: ·)
          else if c = '(' then (lexLoop f rest).map (⟨.lparen, "("⟩ :: ·)
          else if c = ')' then (lexLoop f rest).map (⟨.rparen, ")"⟩ :: ·)
          else if c = '[' then (lexLoop f rest).map (⟨.lbracket, "["⟩ :: ·)
          else if c = ']' then (lexLoop f rest).map (⟨.rbracket, "]"⟩ :: ·)
          else if c = ',' then (lexLoop f rest).map (⟨.comma, ","⟩ :: ·)
          else if c = '=' then
            match rest with
            | '=' :: rest2 => (lexLoop f rest2).map (⟨.eq, "=="⟩ :: ·)
            | _ => (lexLoop f rest).map (⟨.assign, "="⟩ :: ·)
          else if c = '>' then (lexLoop f rest).map (⟨.gt, ">"⟩ :: ·)
          else if c = '<' then (lexLoop f rest).map (⟨.lt, "<"⟩ :: ·)
          else if c = '\\' then
            (lexLoop f rest).map (⟨.identifier, "\\"⟩ :: ·)
          else .error ("Unexpected character: " ++ String.mk [c])

/-- `tokenize(source)`: enough fuel for one unit per character plus the
closing `EOF` token. -/
def tokenizeSrc (source : String) : Except String (List Token) :=
  lexLoop (source.data.length + 2) source.data

/-! ## Parser (`parser.py`) -/

/-- Parser outcome: parsed value with remaining tokens, structural parse
error, or step-budget exhaustion (never an error of the program). -/
inductive PRes (α : Type) where
  | ok (a : α) (rest : List Token)
  | perr (msg : String)
  | pnofuel
deriving Repr

/-- `Parser.current()`: the next token, with the trailing `EOF` token as
the fallback beyond the end. -/
def headTok : List Token → Token
  | [] => ⟨.eof, ""⟩
  | t :: _ => t

/-- `Parser.peek(n)`. -/
def peekTok (toks : List Token) (off : Nat) : Token :=
  headTok (toks.drop off)

/-- `Parser.skip_newlines()`: drop newline and comment tokens. -/
def skipNLs (toks : List Token) : List Token :=
  toks.dropWhile fun t => t.type = .newline ∨ t.type = .comment

/-- `Parser.expect(type)`. -/
def expectTok (tt : TokType) (toks : List Token) : PRes Token :=
  let t := headTok toks
  if t.type = tt then .ok t toks.tail
  else .perr ("Expected " ++ typeName tt ++ ", got " ++ typeName t.type)

/-- `Parser.convert_vars_to_interpolation`: rewrite each bare `$name`
(also `$@`/`$#`) not followed by `{` or `(` into `${name}` form, scanning
left to right. -/
def convertVars : Nat → List Char → List Char
  | 0, l => l
  | _ + 1, [] => []
  | _ + 1, ['$'] => ['$']
  | fu + 1, '$' :: c :: rest2 =>
      if c = '{' ∨ c = '(' then '$' :: convertVars fu (c :: rest2)
      else
        let w := (c :: rest2).takeWhile isWordChar
        if ¬ w.isEmpty then
          '$' :: '{'
            :: (w ++ '}' :: convertVars fu ((c :: rest2).dropWhile isWordChar))
        else if c = '@' ∨ c = '#' then
          '$' :: '{' :: c :: '}' :: convertVars fu rest2
        else '$' :: convertVars fu (c :: rest2)
  | fu + 1, c :: rest => c :: convertVars fu rest

/-- String form of `convert_vars_to_interpolation`. -/
def convertVarsStr (s : String) : String :=
  String.mk (convertVars (s.data.length + 1) s.data)

/-- `Parser.create_string_literal`. -/
def createStringLiteral (s : String) : Expr :=
  .stringLit s (findInterps (s.data.length + 1) s.data 0)

/-- The `run` loop's stop condition (`NEWLINE`, `EOF`, `COMMENT`). -/
def isRunStop (t : Token) : Bool :=
  t.type = .newline || t.type = .eof || t.type = .comment

/-- Re-serialization of one token inside a `run` command (`parse_run`):
strings are converted and re-quoted, variable/special/argument tokens
become `${name}` text, everything else contributes its raw text. -/
def runFragment (t : Token) : String :=
  match t.type with
  | .string => "\"" ++ convertVarsStr t.value ++ "\""
  | .number => t.value
  | .identifier => t.value
  | .varRef => "$\x7b" ++ t.value ++ "\x7d"
  | .cwd => "$\x7b" ++ t.value ++ "\x7d"
  | .home => "$\x7b" ++ t.value ++ "\x7d"
  | .nlpmHome => "$\x7b" ++ t.value ++ "\x7d"
  | .scriptDir => "$\x7b" ++ t.value ++ "\x7d"
  | .os => "$\x7b" ++ t.value ++ "\x7d"
  | .argMarker =>
      if t.value = "@" then "$\x7b@\x7d"
      else if t.value = "#" then "$\x7b#\x7d"
      else "$\x7b" ++ t.value ++ "\x7d"
  | _ => t.value

/-- The token-collection loop of `parse_run`: take tokens until a
newline/comment/EOF, re-serializing each, with the backslash-then-string
escaped-quote idiom merged into one quote-prefixed fragment.  Returns the
fragments and the unconsumed tokens. -/
def collectRunParts : List Token → List String × List Token
  | [] => ([], [])
  | t :: ts =>
      if isRunStop t then ([], t :: ts)
      else if t.type = .identifier ∧ t.value = "\\" then
        match ts with
        | t2 :: ts2 =>
            if t2.type = .string then
              let frag := convertVarsStr ("\"" ++ t2.value)
              let (ps, r) := collectRunParts ts2
              (frag :: ps, r)
            else
              let (ps, r) := collectRunParts (t2 :: ts2)
              (runFragment t :: ps, r)
        | [] =>
            let (ps, r) := collectRunParts []
            (runFragment t :: ps, r)
      else
        let (ps, r) := collectRunParts ts
        (runFragment t :: ps, r)

/-- `Parser.parse_run`, applied to the tokens after the `run` keyword:
`skip_newlines()`, then collect and join the command fragments. -/
def parseRunStmt (toks : List Token) : Stmt × List Token :=
  let toks₁ := skipNLs toks
  let (parts, rest) := collectRunParts toks₁
  (.runCommand (createStringLiteral (String.intercalate " " parts)), rest)

/-- The parameter-list loop of `parse_function_def`: bare or `$`-prefixed
names, comments skipped; anything else (a comma included) is an error. -/
def parseParams : List Token → List String → PRes (List String)
  | [], acc => .ok acc.reverse []
  | t :: ts, acc =>
      if t.type = .rparen ∨ t.type = .eof then .ok acc.reverse (t :: ts)
      else if t.type = .varRef ∨ t.type = .identifier then
        match ts with
        | t2 :: ts2 =>
            if t2.type = .comment then parseParams ts2 (t.value :: acc)
            else parseParams (t2 :: ts2) (t.value :: acc)
        | [] => parseParams [] (t.value :: acc)
      else .perr "Expected parameter name"

mutual

/-- `Parser.parse_statement` (after its leading `skip_newlines`). -/
def parseStatement : Nat → List Token → PRes (Option Stmt)
  | 0, _ => .pnofuel
  | f + 1, toks0 =>
      let toks := skipNLs toks0
      let t := headTok toks
      match t.type with
      | .eof => .ok Option.none toks
      | .comment => .ok Option.none toks.tail
      | .kwRun =>
          let (s, rest) := parseRunStmt toks.tail
          .ok (some s) rest
      | .kwCd =>
          match parseCd f toks.tail with
          | .ok s rest => .ok (some s) rest
          | .perr m => .perr m
          | .pnofuel => .pnofuel
      | .kwIf =>
          match parseIf f toks.tail with
          | .ok s rest => .ok (some s) rest
          | .perr m => .perr m
          | .pnofuel => .pnofuel
      | .kwFor =>
          match parseFor f toks.tail with
          | .ok s rest => .ok (some s) rest
          | .perr m => .perr m
          | .pnofuel => .pnofuel
      | .kwFn =>
          match parseFnDef f toks.tail with
          | .ok s rest => .ok (some s) rest
          | .perr m => .perr m
          | .pnofuel => .pnofuel
      | .kwOn =>
          match parseOsBlock f toks.tail with
          | .ok s rest => .ok (some s) rest
          | .perr m => .perr m
          | .pnofuel => .pnofuel
      | .kwParallel =>
          match parseParallel f toks.tail with
          | .ok s rest => .ok (some s) rest
          | .perr m => .perr m
          | .pnofuel => .pnofuel
      | .identifier =>
          if (peekTok toks 1).type = .assign then
            match parseExpression f (toks.tail.tail) with
            | .ok e rest => .ok (some (.assignment t.value e)) rest
            | .perr m => .perr m
            | .pnofuel => .pnofuel
          else if (peekTok toks 1).type = .lparen then
            match parseFunctionCall f toks with
            | .ok (name, args) rest =>
                .ok (some (.functionCallStmt name args)) rest
            | .perr m => .perr m
            | .pnofuel => .pnofuel
          else .perr ("Unexpected token: " ++ t.value)
      | .varRef =>
          match expectTok .assign toks.tail with
          | .ok _ rest =>
              match parseExpression f rest with
              | .ok e rest2 => .ok (some (.assignment t.value e)) rest2
              | .perr m => .perr m
              | .pnofuel => .pnofuel
          | .perr m => .perr m
          | .pnofuel => .pnofuel
      | _ => .perr ("Unexpected token: " ++ t.value)

/-- `Parser.parse_cd` after the `cd` keyword. -/
def parseCd : Nat → List Token → PRes Stmt
  | 0, _ => .pnofuel
  | f + 1, toks =>
      let toks := skipNLs toks
      match parseExpression f toks with
      | .ok e rest => .ok (.cdCommand e) rest
      | .perr m => .perr m
      | .pnofuel => .pnofuel

/-- `Parser.parse_expression`. -/
def parseExpression : Nat → List Token → PRes Expr
  | 0, _ => .pnofuel
  | f + 1, toks => parseComparison f toks

/-- `Parser.parse_comparison`: one optional comparison level, never
chained. -/
def parseComparison : Nat → List Token → PRes Expr
  | 0, _ => .pnofuel
  | f + 1, toks =>
      match parsePrimary f toks with
      | .ok left rest =>
          let t := headTok rest
          if t.type = .gt ∨ t.type = .lt ∨ t.type = .eq then
            match parsePrimary f rest.tail with
            | .ok right rest2 => .ok (.comparison left t.value right) rest2
            | .perr m => .perr m
            | .pnofuel => .pnofuel
          else .ok left rest
      | .perr m => .perr m
      | .pnofuel => .pnofuel

/-- `Parser.parse_primary`. -/
def parsePrimary : Nat → List Token → PRes Expr
  | 0, _ => .pnofuel
  | f + 1, toks =>
      let t := headTok toks
      match t.type with
      | .string => .ok (createStringLiteral t.value) toks.tail
      | .number =>
          if t.value.data.contains '.' then
            .ok (.numberLit (.float t.value)) toks.tail
          else .ok (.numberLit (.int (digitsToNat t.value))) toks.tail
      | .bool => .ok (.boolLit (t.value = "true")) toks.tail
      | .varRef => .ok (.varRef t.value) toks.tail
      | .cwd => .ok (.specialVarRef t.value) toks.tail
      | .home => .ok (.specialVarRef t.value) toks.tail
      | .nlpmHome => .ok (.specialVarRef t.value) toks.tail
      | .scriptDir => .ok (.specialVarRef t.value) toks.tail
      | .os => .ok (.specialVarRef t.value) toks.tail
      | .argMarker =>
          if t.value = "@" then .ok (.argRef .all) toks.tail
          else if t.value = "#" then .ok (.argRef .count) toks.tail
          else if t.value.data.contains '.' then
            .perr ("ValueError: invalid literal for int() with base 10: '"
              ++ t.value ++ "'")
          else .ok (.argRef (.pos (digitsToNat t.value))) toks.tail
      | .lbracket => parseArray f toks
      | .identifier =>
          if (peekTok toks 1).type = .lparen then
            match parseFunctionCall f toks with
            | .ok (name, args) rest => .ok (.functionCall name args) rest
            | .perr m => .perr m
            | .pnofuel => .pnofuel
          else .ok (.varRef t.value) toks.tail
      | _ => .perr ("Unexpected token in expression: " ++ typeName t.type)

/-- `Parser.parse_array`. -/
def parseArray : Nat → List Token → PRes Expr
  | 0, _ => .pnofuel
  | f + 1, toks =>
      match expectTok .lbracket toks with
      | .ok _ rest =>
          match parseArrayElems f rest [] with
          | .ok es rest2 =>
              match expectTok .rbracket rest2 with
              | .ok _ rest3 => .ok (.arrayLit es) rest3
              | .perr m => .perr m
              | .pnofuel => .pnofuel
          | .perr m => .perr m
          | .pnofuel => .pnofuel
      | .perr m => .perr m
      | .pnofuel => .pnofuel

/-- The element loop of `parse_array`: comma- or comment-separated
elements until the closing bracket. -/
def parseArrayElems : Nat → List Token → List Expr → PRes (List Expr)
  | 0, _, _ => .pnofuel
  | f + 1, toks, acc =>
      let t := headTok toks
      if t.type = .rbracket ∨ t.type = .eof then .ok acc.reverse toks
      else
        match parseExpression f toks with
        | .ok e rest =>
            let t2 := headTok rest
            if t2.type = .comma then parseArrayElems f rest.tail (e :: acc)
            else if t2.type = .comment then
              parseArrayElems f rest.tail (e :: acc)
            else if t2.type = .rbracket then .ok (e :: acc).reverse rest
            else .perr "Expected comma or closing bracket in array"
        | .perr m => .perr m
        | .pnofuel => .pnofuel

/-- `Parser.parse_if` after the `if` keyword. -/
def parseIf : Nat → List Token → PRes Stmt
  | 0, _ => .pnofuel
  | f + 1, toks =>
      match parseExpression f toks with
      | .ok cond rest =>
          match expectTok .lbrace rest with
          | .ok _ rest2 =>
              match parseBlockItems f rest2 [] with
              | .ok thenB rest3 =>
                  match expectTok .rbrace rest3 with
                  | .ok _ rest4 =>
                      if (headTok rest4).type = .kwElse then
                        match expectTok .lbrace rest4.tail with
                        | .ok _ rest5 =>
                            match parseBlockItems f rest5 [] with
                            | .ok elseB rest6 =>
                                match expectTok .rbrace rest6 with
                                | .ok _ rest7 =>
                                    .ok (.ifStatement cond thenB (some elseB))
                                      rest7
                                | .perr m => .perr m
                                | .pnofuel => .pnofuel
                            | .perr m => .perr m
                            | .pnofuel => .pnofuel
                        | .perr m => .perr m
                        | .pnofuel => .pnofuel
                      else .ok (.ifStatement cond thenB Option.none) rest4
                  | .perr m => .perr m
                  | .pnofuel => .pnofuel
              | .perr m => .perr m
              | .pnofuel => .pnofuel
          | .perr m => .perr m
          | .pnofuel => .pnofuel
      | .perr m => .perr m
      | .pnofuel => .pnofuel

/-- `Parser.parse_for` after the `for` keyword. -/
def parseFor : Nat → List Token → PRes Stmt
  | 0, _ => .pnofuel
  | f + 1, toks =>
      let t := headTok toks
      if t.type ≠ .varRef then .perr "Expected $variable after 'for'"
      else
        match expectTok .kwIn toks.tail with
        | .ok _ rest =>
            match parseExpression f rest with
            | .ok iter rest2 =>
                match expectTok .lbrace rest2 with
                | .ok _ rest3 =>
                    match parseBlockItems f rest3 [] with
                    | .ok body rest4 =>
                        match expectTok .rbrace rest4 with
                        | .ok _ rest5 =>
                            .ok (.forLoop t.value iter body) rest5
                        | .perr m => .perr m
                        | .pnofuel => .pnofuel
                    | .perr m => .perr m
                    | .pnofuel => .pnofuel
                | .perr m => .perr m
                | .pnofuel => .pnofuel
            | .perr m => .perr m
            | .pnofuel => .pnofuel
        | .perr m => .perr m
        | .pnofuel => .pnofuel

/-- `Parser.parse_function_def` after the `fn` keyword. -/
def parseFnDef : Nat → List Token → PRes Stmt
  | 0, _ => .pnofuel
  | f + 1, toks =>
      let t := headTok toks
      if t.type ≠ .identifier then .perr "Expected function name after 'fn'"
      else
        match expectTok .lparen toks.tail with
        | .ok _ rest =>
            match parseParams rest [] with
            | .ok params rest2 =>
                match expectTok .rparen rest2 with
                | .ok _ rest3 =>
                    match expectTok .lbrace rest3 with
                    | .ok _ rest4 =>
                        match parseBlockItems f rest4 [] with
                        | .ok body rest5 =>
                            match expectTok .rbrace rest5 with
                            | .ok _ rest6 =>
                                .ok (.functionDef t.value params body) rest6
                            | .perr m => .perr m
                            | .pnofuel => .pnofuel
                        | .perr m => .perr m
                        | .pnofuel => .pnofuel
                    | .perr m => .perr m
                    | .pnofuel => .pnofuel
                | .perr m => .perr m
                | .pnofuel => .pnofuel
            | .perr m => .perr m
            | .pnofuel => .pnofuel
        | .perr m => .perr m
        | .pnofuel => .pnofuel

/-- `Parser.parse_function_call`, from the name token on: name, `(`,
expressions until `)` with comments skipped (no comma handling), `)`. -/
def parseFunctionCall : Nat → List Token → PRes (String × List Expr)
  | 0, _ => .pnofuel
  | f + 1, toks =>
      let t := headTok toks
      match expectTok .lparen toks.tail with
      | .ok _ rest =>
          match parseCallArgs f rest [] with
          | .ok args rest2 =>
              match expectTok .rparen rest2 with
              | .ok _ rest3 => .ok (t.value, args) rest3
              | .perr m => .perr m
              | .pnofuel => .pnofuel
          | .perr m => .perr m
          | .pnofuel => .pnofuel
      | .perr m => .perr m
      | .pnofuel => .pnofuel

/-- The argument loop of `parse_function_call`: expressions until the
closing parenthesis, advancing over comment tokens only. -/
def parseCallArgs : Nat → List Token → List Expr → PRes (List Expr)
  | 0, _, _ => .pnofuel
  | f + 1, toks, acc =>
      let t := headTok toks
      if t.type = .rparen ∨ t.type = .eof then .ok acc.reverse toks
      else
        match parseExpression f toks with
        | .ok e rest =>
            let rest2 :=
              if (headTok rest).type = .comment then rest.tail else rest
            parseCallArgs f rest2 (e :: acc)
        | .perr m => .perr m
        | .pnofuel => .pnofuel

/-- `Parser.parse_os_block` after the `on` keyword. -/
def parseOsBlock : Nat → List Token → PRes Stmt
  | 0, _ => .pnofuel
  | f + 1, toks =>
      let t := headTok toks
      if t.type ≠ .identifier then .perr "Expected 'windows' or 'unix' after 'on'"
      else if t.value ≠ "windows" ∧ t.value ≠ "unix" then
        .perr ("Expected 'windows' or 'unix', got '" ++ t.value ++ "'")
      else
        match expectTok .lbrace toks.tail with
        | .ok _ rest =>
            match parseBlockItems f rest [] with
            | .ok body rest2 =>
                match expectTok .rbrace rest2 with
                | .ok _ rest3 => .ok (.osBlock t.value body) rest3
                | .perr m => .perr m
                | .pnofuel => .pnofuel
            | .perr m => .perr m
            | .pnofuel => .pnofuel
        | .perr m => .perr m
        | .pnofuel => .pnofuel

/-- `Parser.parse_parallel` after the `parallel` keyword. -/
def parseParallel : Nat → List Token → PRes Stmt
  | 0, _ => .pnofuel
  | f + 1, toks =>
      match expectTok .lbrace toks with
      | .ok _ rest =>
          match parseBlockItems f rest [] with
          | .ok body rest2 =>
              match expectTok .rbrace rest2 with
              | .ok _ rest3 => .ok (.parallelBlock body) rest3
              | .perr m => .perr m
              | .pnofuel => .pnofuel
          | .perr m => .perr m
          | .pnofuel => .pnofuel
      | .perr m => .perr m
      | .pnofuel => .pnofuel

/-- `Parser.parse_block`: statements until the closing brace. -/
def parseBlockItems : Nat → List Token → List Stmt → PRes (List Stmt)
  | 0, _, _ => .pnofuel
  | f + 1, toks0, acc =>
      let toks := skipNLs toks0
      let t := headTok toks
      if t.type = .rbrace ∨ t.type = .eof then .ok acc.reverse toks
      else
        match parseStatement f toks with
        | .ok (some s) rest => parseBlockItems f rest (s :: acc)
        | .ok Option.none rest => parseBlockItems f rest acc
        | .perr m => .perr m
        | .pnofuel => .pnofuel

end

/-- `Parser.parse`: top-level statements until `EOF`. -/
def parseProgramLoop : Nat → List Token → List Stmt → PRes (List Stmt)
  | 0, _, _ => .pnofuel
  | f + 1, toks0, acc =>
      let toks := skipNLs toks0
      if (headTok toks).type = .eof then .ok acc.reverse toks
      else
        match parseStatement f toks with
        | .ok (some s) rest => parseProgramLoop f rest (s :: acc)
        | .ok Option.none rest => parseProgramLoop f rest acc
        | .perr m => .perr m
        | .pnofuel => .pnofuel

/-- `parse(source)`: tokenize, then parse the token list. -/
def parseNLPS (fuel : Nat) (source : String) : PRes (List Stmt) :=
  match tokenizeSrc source with
  | .error m => .perr m
  | .ok toks => parseProgramLoop fuel toks []

/-- `Interpreter.run(source)`: parse and execute, printing uncaught error
text to standard error and returning the exit code; `none` only when the
step budget ran out. -/
def runSource (fuel : Nat) (st : InterpState) (source : String) :
    Option (Int × InterpState) :=
  match parseNLPS fuel source with
  | .perr m =>
      some (1, { st with stderr := st.stderr ++ ["[nlps] Error: " ++ m] })
  | .pnofuel => Option.none
  | .ok stmts _ =>
      match execStmts fuel st stmts with
      | .ok _ st' => some (0, st')
      | .err m st' =>
          some (1, { st' with stderr := st'.stderr ++ ["[nlps] Error: " ++ m] })
      | .nofuel => Option.none

/-- A small concrete host configuration used to instantiate theorems with
hypotheses: two invocation arguments, two host environment entries, a
filesystem with a few directories and one plain file. -/
def demoState : InterpState :=
  initState "/home/u/scripts" ["a1", "a2"]
    [("PATH", "/usr/bin"), ("LANG", "C")] "/work" "/home/u" .unix
    ["/", "/work", "/work/sub", "/home", "/home/u"] ["/work/file.txt"]

/-- The environment key set only grows from `s` to `s'`. -/
def EnvMono (s s' : InterpState) : Prop :=
  ∀ k, (getk s.environment k).isSome → (getk s'.environment k).isSome

/-- Single tokens that `parse_primary` accepts without looking ahead or
recursing: dot-free numbers, strings, booleans and `$`-variables. -/
def isAtomTok (t : Token) : Bool :=
  match t.type with
  | .number => ¬ t.value.data.contains '.'
  | .string => true
  | .bool => true
  | .varRef => true
  | _ => false

/-- The expression `parse_primary` builds from such a token. -/
def atomExpr (t : Token) : Expr :=
  match t.type with
  | .number => .numberLit (.int (digitsToNat t.value))
  | .string => createStringLiteral t.value
  | .bool => .boolLit (t.value = "true")
  | _ => .varRef t.value

/-- Demo state with one registered function `g0(p) { G = "1" }`. -/
def demoCallState : InterpState :=
  { demoState with functions :=
      [("g0", ⟨["p"], [.assignment "G" (.stringLit "1" [])]⟩)] }

/-- The state after calling `g0(5)` in `demoCallState`: variables
restored, the two keys the call introduced kept in the environment. -/
def demoCallOut : InterpState :=
  { demoCallState with
      environment := [("PATH", "/usr/bin"), ("LANG", "C"), ("p", "5"),
        ("G", "1")] }

/-- Demo state after the assignment `a = 1`. -/
def demoParA : InterpState :=
  { demoState with
      vars := [("a", Value.num (NumVal.int 1))]
      environment := [("PATH", "/usr/bin"), ("LANG", "C"), ("a", "1")] }

/-- `demoParA` after also defining the function `g`. -/
def demoParC : InterpState :=
  { demoParA with functions := [("g", ⟨[], []⟩)] }

/-! # Theorems -/

/-! ## Span well-formedness and the substitution-order equivalence -/

theorem spansWF_le : ∀ {lo hi : Nat} {spans : List (Nat × Nat × String)},
    spansWF lo hi spans → lo ≤ hi := by
  intro lo hi spans
  induction spans generalizing lo with
  | nil => intro h; exact h
  | cons sp rest ih =>
      obtain ⟨st, en, nm⟩ := sp
      intro h
      obtain ⟨h1, h2, h3⟩ := h
      exact le_trans h1 (le_trans h2 (ih h3))

theorem spansWF_mono {lo' lo hi : Nat} {spans : List (Nat × Nat × String)}
    (hle : lo' ≤ lo) (h : spansWF lo hi spans) : spansWF lo' hi spans := by
  cases spans with
  | nil => exact le_trans hle h
  | cons sp rest =>
      obtain ⟨st, en, nm⟩ := sp
      obtain ⟨h1, h2, h3⟩ := h
      exact ⟨le_trans hle h1, h2, h3⟩

theorem readNameLen {l : List Char} {nm : String} {r : List Char}
    (h : readName l = some (nm, r)) :
    l.length = nm.length + 1 + r.length := by
  unfold readName at h
  by_cases hw : (l.takeWhile isWordChar).isEmpty
  · rw [if_pos hw] at h
    split at h
    · injection h with h
      injection h with h1 h2
      subst h1; subst h2
      simp [String.length]
      omega
    · injection h with h
      injection h with h1 h2
      subst h1; subst h2
      simp [String.length]
      omega
    · exact absurd h (by simp)
  · rw [if_neg hw] at h
    revert h
    split
    next heq =>
      intro h
      injection h with h
      injection h with h1 h2
      subst h1; subst h2
      have hsplit :=
        List.takeWhile_append_dropWhile (p := isWordChar) (l := l)
      have hlen2 := congrArg List.length hsplit
      rw [List.length_append, heq] at hlen2
      simp [String.length]
      simp at hlen2
      omega
    · intro h; exact absurd h (by simp)

theorem findInterps_wf :
    ∀ (fu : Nat) (l : List Char), l.length < fu →
    ∀ i, spansWF i (i + l.length) (findInterps fu l i) := by
  intro fu
  induction fu with
  | zero => intro l hl i; exact absurd hl (Nat.not_lt_zero _)
  | succ fu ih =>
      intro l hl i
      cases l with
      | nil => simp [findInterps, spansWF]
      | cons c rest =>
          simp only [findInterps]
          by_cases hc : c = '$' ∧ rest.head? = some '{'
          · rw [if_pos hc]
            obtain ⟨_, hc2⟩ := hc
            cases rest with
            | nil => simp at hc2
            | cons c2 r2 =>
                simp only [List.head?] at hc2
                injection hc2 with hc2
                simp only [List.tail_cons]
                simp only [List.length_cons] at hl ⊢
                cases hr : readName r2 with
                | none =>
                    have h2 := ih (c2 :: r2) (by simp; omega) (i + 1)
                    simp only [List.length_cons] at h2
                    have heq : i + 1 + (r2.length + 1)
                        = i + (r2.length + 1 + 1) := by omega
                    rw [heq] at h2
                    exact spansWF_mono (Nat.le_succ i) h2
                | some pr =>
                    obtain ⟨name, rest'⟩ := pr
                    have hlen := readNameLen hr
                    refine ⟨le_refl i, by omega, ?_⟩
                    have h2 := ih rest' (by omega) (i + name.length + 3)
                    have heq : i + name.length + 3 + rest'.length
                        = i + (r2.length + 1 + 1) := by omega
                    rw [heq] at h2
                    exact h2
          · rw [if_neg hc]
            simp only [List.length_cons] at hl ⊢
            have h2 := ih rest (by omega) (i + 1)
            have heq : i + 1 + rest.length = i + (rest.length + 1) := by omega
            rw [heq] at h2
            exact spansWF_mono (Nat.le_succ i) h2

theorem substDesc_eq_segPass (ρ : String → List Char) (s : List Char) :
    ∀ (spans : List (Nat × Nat × String)) (lo : Nat),
    spansWF lo s.length spans →
    substDesc ρ spans s = s.take lo ++ segPass ρ s lo spans := by
  intro spans
  induction spans with
  | nil =>
      intro lo _
      simp [substDesc, segPass, List.take_append_drop]
  | cons sp rest ih =>
      obtain ⟨st, en, nm⟩ := sp
      intro lo h
      obtain ⟨hlo, hsten, hrest⟩ := h
      have hen : en ≤ s.length := spansWF_le hrest
      simp only [substDesc, segPass]
      rw [ih en hrest]
      unfold applyOne
      have hlt : (s.take en).length = en := by
        rw [List.length_take]; omega
      rw [List.take_append_eq_append_take, List.drop_append_eq_append_drop,
        hlt]
      have h1 : st - en = 0 := by omega
      have h2 : en - en = 0 := by omega
      rw [h1, h2]
      have h3 : (s.take en).take st = s.take st := by
        rw [List.take_take]
        congr 1
        omega
      have h4 : (s.take en).drop en = [] :=
        List.drop_eq_nil_of_le (by omega)
      rw [h3, h4]
      have h5 : s.take st = s.take lo ++ (s.drop lo).take (st - lo) := by
        rw [← List.take_add]
        congr 1
        omega
      rw [h5]
      simp

theorem naiveLR_eq_segPass (ρ : String → List Char) (s : List Char) :
    ∀ (spans : List (Nat × Nat × String)) (pos : Nat) (pre : List Char),
    spansWF pos s.length spans →
    naiveLR ρ (pre ++ s.drop pos) ((pre.length : Int) - (pos : Int)) spans
      = pre ++ segPass ρ s pos spans := by
  intro spans
  induction spans with
  | nil =>
      intro pos pre _
      simp [naiveLR, segPass]
  | cons sp rest ih =>
      obtain ⟨st, en, nm⟩ := sp
      intro pos pre h
      obtain ⟨hpos, hsten, hrest⟩ := h
      have hen : en ≤ s.length := spansWF_le hrest
      have hst : st ≤ s.length := le_trans hsten hen
      simp only [naiveLR, segPass]
      have hdlen : (s.drop pos).length = s.length - pos := by simp
      have ha : ((st : Int) + ((pre.length : Int) - (pos : Int))).toNat
          = pre.length + (st - pos) := by omega
      have hb : ((en : Int) + ((pre.length : Int) - (pos : Int))).toNat
          = pre.length + (en - pos) := by omega
      rw [ha, hb]
      have hP : applyOne (pre ++ s.drop pos) (pre.length + (st - pos))
            (pre.length + (en - pos)) (ρ nm)
          = (pre ++ (s.drop pos).take (st - pos) ++ ρ nm) ++ s.drop en := by
        unfold applyOne
        rw [List.take_append_eq_append_take, List.drop_append_eq_append_drop]
        have h1 : pre.take (pre.length + (st - pos)) = pre :=
          List.take_of_length_le (by omega)
        have h2 : pre.length + (st - pos) - pre.length = st - pos := by omega
        have h3 : pre.drop (pre.length + (en - pos)) = [] :=
          List.drop_eq_nil_of_le (by omega)
        have h4 : pre.length + (en - pos) - pre.length = en - pos := by omega
        rw [h1, h2, h3, h4]
        have h5 : (s.drop pos).drop (en - pos) = s.drop en := by
          rw [List.drop_drop]
          congr 1
          omega
        rw [h5]
        simp
      rw [hP]
      have hPlen : (pre ++ (s.drop pos).take (st - pos) ++ ρ nm).length
          = pre.length + (st - pos) + (ρ nm).length := by
        simp [List.length_take]
        omega
      have hsh : (pre.length : Int) - (pos : Int) + ((ρ nm).length : Int)
            - ((en : Int) - (st : Int))
          = (((pre ++ (s.drop pos).take (st - pos) ++ ρ nm).length : Int)
              - (en : Int)) := by
        rw [hPlen]
        push_cast
        omega
      rw [hsh]
      rw [ih en (pre ++ (s.drop pos).take (st - pos) ++ ρ nm) hrest]
      simp

theorem substDesc_eq_naiveLR (ρ : String → List Char) (s : List Char)
    (spans : List (Nat × Nat × String)) (h : spansWF 0 s.length spans) :
    substDesc ρ spans s = naiveLR ρ s 0 spans := by
  have h1 := substDesc_eq_segPass ρ s spans 0 h
  have h2 := naiveLR_eq_segPass ρ s spans 0 [] h
  simp at h1 h2
  rw [h1, ← h2]

/-! ## Association-list facts -/

theorem getk_setk_isSome {α : Type} (m : List (String × α)) (k : String)
    (v : α) (j : String) :
    (getk m j).isSome → (getk (setk m k v) j).isSome := by
  induction m with
  | nil => simp [getk]
  | cons kv rest ih =>
      obtain ⟨k', v'⟩ := kv
      simp only [setk]
      by_cases hkk : k' = k
      · rw [if_pos hkk]
        subst hkk
        intro h
        simp only [getk] at h ⊢
        by_cases hj : k' = j
        · rw [if_pos hj]; simp
        · rw [if_neg hj] at h ⊢; exact h
      · rw [if_neg hkk]
        intro h
        simp only [getk] at h ⊢
        by_cases hj : k' = j
        · rw [if_pos hj] at h ⊢; exact h
        · rw [if_neg hj] at h ⊢; exact ih h

theorem getk_append_isSome {α : Type} (a b : List (String × α)) (j : String) :
    (getk a j).isSome → (getk (a ++ b) j).isSome := by
  induction a with
  | nil => simp [getk]
  | cons kv rest ih =>
      obtain ⟨k', v'⟩ := kv
      intro h
      simp only [getk, List.cons_append] at h ⊢
      by_cases hj : k' = j
      · rw [if_pos hj]; simp
      · rw [if_neg hj] at h ⊢; exact ih h

theorem getk_append_eq {α : Type} (a b : List (String × α)) (j : String) :
    getk (a ++ b) j
      = match getk a j with
        | some v => some v
        | Option.none => getk b j := by
  induction a with
  | nil => simp [getk]
  | cons kv rest ih =>
      obtain ⟨k', v'⟩ := kv
      simp only [getk, List.cons_append]
      by_cases hj : k' = j
      · rw [if_pos hj, if_pos hj]
      · rw [if_neg hj, if_neg hj]
        exact ih

theorem getk_filter_missing {α : Type} (old : List (String × α))
    (l : List (String × α)) (j : String) (h : getk old j = Option.none) :
    getk (l.filter fun kv => (getk old kv.1).isNone) j = getk l j := by
  induction l with
  | nil => simp [getk]
  | cons kv rest ih =>
      obtain ⟨k', v'⟩ := kv
      by_cases hj : k' = j
      · subst hj
        have hp : (getk old k').isNone = true := by rw [h]; rfl
        simp [List.filter, hp, getk]
      · cases hp : (getk old k').isNone with
        | true => simp only [List.filter, hp, getk, if_neg hj]; exact ih
        | false => simp only [List.filter, hp, getk, if_neg hj]; exact ih

/-! ## Result-shape facts about the interpreter -/

theorem evalCompare_ok_bool {op : String} {l r v : Value}
    (h : evalCompare op l r = .ok v) : ∃ b, v = .bool b := by
  unfold evalCompare at h
  split_ifs at h
  · revert h
    split
    · intro h; injection h with h; exact ⟨_, h.symm⟩
    · split
      · intro h; injection h with h; exact ⟨_, h.symm⟩
      · intro h; exact absurd h (by simp)
  · revert h
    split
    · intro h; injection h with h; exact ⟨_, h.symm⟩
    · split
      · intro h; injection h with h; exact ⟨_, h.symm⟩
      · intro h; exact absurd h (by simp)
  · injection h with h; exact ⟨_, h.symm⟩

theorem callFunction_ok_val {f : Nat} {st : InterpState} {name : String}
    {args : List Expr} {v : Value} {st' : InterpState}
    (h : callFunction f st name args = .ok v st') : v = Value.none := by
  cases f with
  | zero => simp [callFunction] at h
  | succ f =>
      unfold callFunction at h
      split at h
      · simp at h
      · split_ifs at h
        split at h
        · injection h with h1 _; exact h1.symm
        · simp at h
        · simp at h

/-- String-valued evaluation leaves the interpreter state unchanged: every
expression form whose value can be a `str` (string literal, variable,
special variable, argument reference) is effect-free. -/
theorem evaluate_ok_str {f : Nat} {st : InterpState} {e : Expr} {s : String}
    {st₁ : InterpState} (h : evaluate f st e = .ok (.str s) st₁) :
    st₁ = st := by
  cases f with
  | zero => simp [evaluate] at h
  | succ f =>
      cases e with
      | stringLit v sp =>
          simp [evaluate] at h
          exact h.2.symm
      | numberLit n => simp [evaluate] at h
      | boolLit b => simp [evaluate] at h
      | varRef name =>
          simp only [evaluate] at h
          cases hk : getk st.vars name with
          | none => rw [hk] at h; simp at h
          | some v => rw [hk] at h; injection h with _ h2; exact h2.symm
      | specialVarRef name =>
          simp only [evaluate] at h
          cases hk : getSpecialVar st name with
          | none => rw [hk] at h; simp at h
          | some v => rw [hk] at h; injection h with _ h2; exact h2.symm
      | argRef ix =>
          cases ix with
          | all => simp [evaluate] at h
          | count => simp [evaluate] at h
          | pos n =>
              simp only [evaluate] at h
              split_ifs at h <;> (injection h with _ h2; exact h2.symm)
      | comparison l op r =>
          simp only [evaluate] at h
          cases h1 : evaluate f st l with
          | nofuel => simp [h1] at h
          | err m st' => simp [h1] at h
          | ok lv st' =>
              simp only [h1] at h
              cases h2 : evaluate f st' r with
              | nofuel => simp [h2] at h
              | err m st'' => simp [h2] at h
              | ok rv st'' =>
                  simp only [h2] at h
                  cases h3 : evalCompare op lv rv with
                  | error m => simp [h3] at h
                  | ok v =>
                      simp only [h3] at h
                      obtain ⟨b, hb⟩ := evalCompare_ok_bool h3
                      subst hb
                      simp at h
      | arrayLit es =>
          simp only [evaluate] at h
          cases h1 : evalList f st es with
          | nofuel => simp [h1] at h
          | err m st' => simp [h1] at h
          | ok vs st' => simp [h1] at h
      | functionCall name args =>
          simp only [evaluate] at h
          have := callFunction_ok_val h
          simp at this

/-! ## Claim theorems -/

/-- C1: running the one-statement script `run "echo hi"` through
`Interpreter.run` does **not** behave as claimed: `execute_run` reads
`stmt.detach`, an attribute the parser's `RunCommand` dataclass does not
define, so the statement raises `AttributeError` after evaluating the
command and before printing the echo line; `run` prints the error to
standard error and returns exit code 1, with nothing on standard output.
This theorem evaluates the code at the failing input. -/
theorem nlps_C1_run_echo_hi :
    (runSource 100 demoState "run \"echo hi\"").map
        (fun p => (p.1, p.2.stdout, p.2.stderr))
      = some (1, [],
          ["[nlps] Error: 'RunCommand' object has no attribute 'detach'"]) := by
  rfl

/-- C2, counterexample: the comma-separated call `f(1, 2)` is not
accepted: `parse_function_call`'s argument loop never consumes a `COMMA`
token, so the comma reaches `parse_primary` and parsing fails. -/
theorem nlps_C2_counterexample :
    parseNLPS 100 "f(1, 2)"
      = .perr "Unexpected token in expression: COMMA" := by
  rfl

/-- Kind facts about the tokens `parse_primary` treats atomically. -/
theorem atomTok_type_props {t : Token} (h : isAtomTok t = true) :
    t.type ≠ .rparen ∧ t.type ≠ .eof ∧ t.type ≠ .comment
      ∧ t.type ≠ .gt ∧ t.type ≠ .lt ∧ t.type ≠ .eq := by
  obtain ⟨tt, v⟩ := t
  cases tt <;> simp [isAtomTok] at h ⊢

/-- `parse_expression` on an atomic token not followed by a comparison
operator consumes exactly that token. -/
theorem parseExpression_atom (g : Nat) (t : Token) (tail : List Token)
    (hAtom : isAtomTok t = true)
    (hnext : ¬((headTok tail).type = .gt ∨ (headTok tail).type = .lt
        ∨ (headTok tail).type = .eq)) :
    parseExpression (g + 3) (t :: tail) = .ok (atomExpr t) tail := by
  have hprim : parsePrimary (g + 1) (t :: tail) = .ok (atomExpr t) tail := by
    obtain ⟨tt, v⟩ := t
    cases tt
    case number =>
      have hc : '.' ∉ v.data := by simpa [isAtomTok] using hAtom
      simp [parsePrimary, headTok, atomExpr, hc]
    case string => simp [parsePrimary, headTok, atomExpr]
    case bool => simp [parsePrimary, headTok, atomExpr]
    case varRef => simp [parsePrimary, headTok, atomExpr]
    all_goals simp [isAtomTok] at hAtom
  show parseExpression ((g + 2) + 1) (t :: tail) = .ok (atomExpr t) tail
  simp only [parseExpression]
  show parseComparison ((g + 1) + 1) (t :: tail) = .ok (atomExpr t) tail
  simp only [parseComparison, hprim]
  rw [if_neg hnext]

/-- One non-terminating step of the `parse_function_call` argument loop. -/
theorem parseCallArgs_cons_step (f : Nat) (t : Token) (ts' : List Token)
    (acc : List Expr) (hne : ¬(t.type = .rparen ∨ t.type = .eof)) :
    parseCallArgs (f + 1) (t :: ts') acc
      = match parseExpression f (t :: ts') with
        | .ok e rest =>
            parseCallArgs f
              (if (headTok rest).type = .comment then rest.tail else rest)
              (e :: acc)
        | .perr m => .perr m
        | .pnofuel => .pnofuel := by
  simp only [parseCallArgs, headTok]
  rw [if_neg hne]

/-- The argument loop of `parse_function_call` collects exactly the atomic
argument tokens before the closing parenthesis, in order. -/
theorem parseCallArgs_atoms :
    ∀ (atoms : List Token) (acc : List Expr) (rest : List Token) (f : Nat),
    (∀ t ∈ atoms, isAtomTok t = true) →
    atoms.length + 4 ≤ f →
    parseCallArgs f (atoms ++ ⟨.rparen, ")"⟩ :: rest) acc
      = .ok (acc.reverse ++ atoms.map atomExpr) (⟨.rparen, ")"⟩ :: rest) := by
  intro atoms
  induction atoms with
  | nil =>
      intro acc rest f _ hf
      obtain ⟨g, rfl⟩ : ∃ g, f = g + 1 := ⟨f - 1, by omega⟩
      simp [parseCallArgs, headTok]
  | cons t ts ih =>
      intro acc rest f hAtoms hf
      obtain ⟨g, rfl⟩ : ∃ g, f = g + 1 := ⟨f - 1, by omega⟩
      have hAt : isAtomTok t = true := hAtoms t (by simp)
      obtain ⟨hne1, hne2, _, _, _, _⟩ := atomTok_type_props hAt
      have hnext : ¬((headTok (ts ++ ⟨.rparen, ")"⟩ :: rest)).type = .gt
          ∨ (headTok (ts ++ ⟨.rparen, ")"⟩ :: rest)).type = .lt
          ∨ (headTok (ts ++ ⟨.rparen, ")"⟩ :: rest)).type = .eq) := by
        cases ts with
        | nil => simp [headTok]
        | cons t2 ts2 =>
            obtain ⟨_, _, _, h4, h5, h6⟩ :=
              atomTok_type_props (hAtoms t2 (by simp))
            simp only [List.cons_append, headTok]
            exact not_or.mpr ⟨h4, not_or.mpr ⟨h5, h6⟩⟩
      have hnc : ¬ (headTok (ts ++ ⟨.rparen, ")"⟩ :: rest)).type
          = .comment := by
        cases ts with
        | nil => simp [headTok]
        | cons t2 ts2 =>
            obtain ⟨_, _, h3, _, _, _⟩ :=
              atomTok_type_props (hAtoms t2 (by simp))
            simpa [headTok] using h3
      obtain ⟨g2, rfl⟩ : ∃ g2, g = g2 + 3 := ⟨g - 3, by omega⟩
      show parseCallArgs ((g2 + 3) + 1)
          ((t :: ts) ++ ⟨.rparen, ")"⟩ :: rest) acc = _
      simp only [List.cons_append]
      rw [parseCallArgs_cons_step (g2 + 3) t
        (ts ++ ⟨.rparen, ")"⟩ :: rest) acc (not_or.mpr ⟨hne1, hne2⟩)]
      simp only [parseExpression_atom g2 t (ts ++ ⟨.rparen, ")"⟩ :: rest)
        hAt hnext]
      rw [if_neg hnc]
      rw [ih (atomExpr t :: acc) rest (g2 + 3)
        (fun u hu => hAtoms u (List.mem_cons_of_mem _ hu))
        (by simp only [List.length_cons] at hf; omega)]
      simp

/-- C2, amended: `parse_function_call` accepts calls whose arguments are
written without comma separators — here with atomic argument tokens —
and produces exactly those argument expressions in written order, both as
an expression (`parseFunctionCall`) and in statement position
(`parseStatement`). -/
theorem nlps_C2_amended (name : String) (atoms rest : List Token) (f : Nat)
    (hAtoms : ∀ t ∈ atoms, isAtomTok t = true)
    (hf : atoms.length + 6 ≤ f) :
    parseFunctionCall f
        (⟨.identifier, name⟩ :: ⟨.lparen, "("⟩
          :: (atoms ++ ⟨.rparen, ")"⟩ :: rest))
      = .ok (name, atoms.map atomExpr) rest
    ∧ parseStatement (f + 1)
        (⟨.identifier, name⟩ :: ⟨.lparen, "("⟩
          :: (atoms ++ ⟨.rparen, ")"⟩ :: rest))
      = .ok (some (.functionCallStmt name (atoms.map atomExpr))) rest := by
  obtain ⟨g, rfl⟩ : ∃ g, f = g + 1 := ⟨f - 1, by omega⟩
  have hcall : parseFunctionCall (g + 1)
      (⟨.identifier, name⟩ :: ⟨.lparen, "("⟩
        :: (atoms ++ ⟨.rparen, ")"⟩ :: rest))
      = .ok (name, atoms.map atomExpr) rest := by
    simp [parseFunctionCall, headTok, expectTok, List.tail_cons,
      parseCallArgs_atoms atoms [] rest g hAtoms (by omega)]
  refine ⟨hcall, ?_⟩
  show parseStatement ((g + 1) + 1) _ = _
  simp only [parseStatement]
  have hskip : skipNLs (⟨.identifier, name⟩ :: ⟨.lparen, "("⟩
      :: (atoms ++ ⟨.rparen, ")"⟩ :: rest))
      = ⟨.identifier, name⟩ :: ⟨.lparen, "("⟩
        :: (atoms ++ ⟨.rparen, ")"⟩ :: rest) := by
    simp [skipNLs, List.dropWhile]
  rw [hskip]
  simp only [headTok, peekTok, List.drop]
  simp [hcall]

/-- C2 amended, witness: `f(1 2)` parses to the call `f` with the two
number arguments in order. -/
theorem nlps_C2_amended_witness :
    isAtomTok ⟨.number, "1"⟩ = true
    ∧ isAtomTok ⟨.number, "2"⟩ = true
    ∧ parseFunctionCall 8
        [⟨.identifier, "f"⟩, ⟨.lparen, "("⟩, ⟨.number, "1"⟩,
         ⟨.number, "2"⟩, ⟨.rparen, ")"⟩]
      = .ok ("f", [.numberLit (.int 1), .numberLit (.int 2)]) [] := by
  refine ⟨by decide, by decide, ?_⟩
  exact (nlps_C2_amended "f" [⟨.number, "1"⟩, ⟨.number, "2"⟩] [] 8
    (by decide) (by decide)).1

/-- C3, counterexample: `parse_run` calls `skip_newlines()` immediately
after consuming the `run` keyword, so a `run` keyword directly followed by
a newline takes its command from the next line: on the token stream of
`run\necho hi` the parsed command string is `echo hi`, not the empty
string the claim requires. -/
theorem nlps_C3_counterexample :
    (parseRunStmt [⟨.newline, "\n"⟩, ⟨.identifier, "echo"⟩,
        ⟨.identifier, "hi"⟩, ⟨.eof, ""⟩]).1
      = .runCommand (.stringLit "echo hi" [])
    ∧ ("echo hi" : String) ≠ "" := by
  constructor
  · rfl
  · decide

theorem isRunStop_false_props {t : Token} (h : isRunStop t = false) :
    t.type ≠ .newline ∧ t.type ≠ .eof ∧ t.type ≠ .comment := by
  simp [isRunStop] at h
  exact ⟨h.1.1, h.1.2, h.2⟩

theorem isRunStop_true_not_string {t : Token} (h : isRunStop t = true) :
    t.type ≠ .string := by
  intro hcontra
  simp [isRunStop, hcontra] at h

theorem collectRunParts_stop_step (t : Token) (ts : List Token)
    (h : isRunStop t = true) :
    collectRunParts (t :: ts) = ([], t :: ts) := by
  rw [collectRunParts.eq_def]
  simp [h]

theorem collectRunParts_plain_step (t : Token) (ts : List Token)
    (h : isRunStop t = false)
    (h2 : ¬ (t.type = .identifier ∧ t.value = "\\")) :
    collectRunParts (t :: ts)
      = (runFragment t :: (collectRunParts ts).1, (collectRunParts ts).2) := by
  rw [collectRunParts.eq_def]
  simp only [h, Bool.false_eq_true, if_false, if_neg h2]

theorem collectRunParts_bs_nil (t : Token)
    (h : isRunStop t = false)
    (h2 : t.type = .identifier ∧ t.value = "\\") :
    collectRunParts [t] = ([runFragment t], []) := by
  have h0 : collectRunParts ([] : List Token) = ([], []) := rfl
  rw [collectRunParts.eq_def]
  simp [h, h2, h0]

theorem collectRunParts_bs_str (t t2 : Token) (ts2 : List Token)
    (h : isRunStop t = false)
    (h2 : t.type = .identifier ∧ t.value = "\\")
    (h3 : t2.type = .string) :
    collectRunParts (t :: t2 :: ts2)
      = (convertVarsStr ("\"" ++ t2.value) :: (collectRunParts ts2).1,
         (collectRunParts ts2).2) := by
  rw [collectRunParts.eq_def]
  simp only [h, Bool.false_eq_true, if_false, if_pos h2, if_pos h3]

theorem collectRunParts_bs_other (t t2 : Token) (ts2 : List Token)
    (h : isRunStop t = false)
    (h2 : t.type = .identifier ∧ t.value = "\\")
    (h3 : ¬ t2.type = .string) :
    collectRunParts (t :: t2 :: ts2)
      = (runFragment t :: (collectRunParts (t2 :: ts2)).1,
         (collectRunParts (t2 :: ts2)).2) := by
  rw [collectRunParts.eq_def]
  simp only [h, Bool.false_eq_true, if_false, if_pos h2, if_neg h3]


theorem collectRunParts_split :
    ∀ (n : Nat) (ts : List Token), ts.length ≤ n →
    ∀ (stop : Token) (rest : List Token),
    (∀ t ∈ ts, isRunStop t = false) → isRunStop stop = true →
    collectRunParts (ts ++ stop :: rest)
        = ((collectRunParts ts).1, stop :: rest)
      ∧ (collectRunParts ts).2 = [] := by
  intro n
  induction n with
  | zero =>
      intro ts hl stop rest _ hstop
      have hts : ts = [] := List.length_eq_zero.mp (Nat.le_zero.mp hl)
      subst hts
      simp [collectRunParts_stop_step stop rest hstop]
      exact ⟨rfl, rfl⟩
  | succ n ih =>
      intro ts hl stop rest hts hstop
      cases ts with
      | nil =>
          simp [collectRunParts_stop_step stop rest hstop]
          exact ⟨rfl, rfl⟩
      | cons t ts0 =>
          have hts0 : isRunStop t = false := hts t (by simp)
          by_cases hbs : t.type = .identifier ∧ t.value = "\\"
          · cases ts0 with
            | nil =>
                have hns := isRunStop_true_not_string hstop
                rw [List.cons_append, List.nil_append,
                  collectRunParts_bs_other t stop rest hts0 hbs hns,
                  collectRunParts_stop_step stop rest hstop,
                  collectRunParts_bs_nil t hts0 hbs]
                exact ⟨rfl, rfl⟩
            | cons t2 ts2 =>
                by_cases hstr : t2.type = .string
                · have hrec := ih ts2 (by simp at hl; omega) stop rest
                    (fun u hu => hts u (by simp [hu])) hstop
                  rw [List.cons_append, List.cons_append,
                    collectRunParts_bs_str t t2 (ts2 ++ stop :: rest)
                      hts0 hbs hstr,
                    collectRunParts_bs_str t t2 ts2 hts0 hbs hstr,
                    hrec.1, hrec.2]
                  exact ⟨rfl, rfl⟩
                · have hrec := ih (t2 :: ts2) (by simp at hl ⊢; omega)
                    stop rest (fun u hu => hts u (by simp at hu ⊢; tauto))
                    hstop
                  rw [List.cons_append, List.cons_append,
                    collectRunParts_bs_other t t2 (ts2 ++ stop :: rest)
                      hts0 hbs hstr]
                  rw [List.cons_append] at hrec
                  rw [hrec.1, collectRunParts_bs_other t t2 ts2 hts0 hbs hstr,
                    hrec.2]
                  exact ⟨rfl, rfl⟩
          · have hrec := ih ts0 (by simp at hl; omega) stop rest
              (fun u hu => hts u (by simp [hu])) hstop
            rw [List.cons_append,
              collectRunParts_plain_step t (ts0 ++ stop :: rest) hts0 hbs,
              hrec.1, collectRunParts_plain_step t ts0 hts0 hbs, hrec.2]
            exact ⟨rfl, rfl⟩


theorem skipNLs_cons_skip (s : Token) (l : List Token)
    (h : s.type = .newline ∨ s.type = .comment) :
    skipNLs (s :: l) = skipNLs l := by
  simp [skipNLs, List.dropWhile_cons, h]

theorem skipNLs_cons_stay (t : Token) (l : List Token)
    (h1 : t.type ≠ .newline) (h2 : t.type ≠ .comment) :
    skipNLs (t :: l) = t :: l := by
  simp [skipNLs, List.dropWhile_cons, h1, h2]

/-- C3, amended: `parse_run` first skips newline/comment tokens after the
`run` keyword, then consumes exactly the tokens of the (nonempty) command
line — everything up to the next newline/comment/EOF — and re-serializes
them, joined with single spaces, into the deferred command string; the
stopping newline and everything after it are left unconsumed. -/
theorem nlps_C3_run_scope (seps ts rest : List Token)
    (hseps : ∀ t ∈ seps, t.type = .newline ∨ t.type = .comment)
    (hts : ∀ t ∈ ts, isRunStop t = false) (hne : ts ≠ []) :
    parseRunStmt (seps ++ ts ++ ⟨.newline, "\n"⟩ :: rest)
      = (.runCommand (createStringLiteral
          (String.intercalate " " (collectRunParts ts).1)),
         ⟨.newline, "\n"⟩ :: rest) := by
  obtain ⟨t0, ts0, rfl⟩ : ∃ t0 ts0, ts = t0 :: ts0 := by
    cases ts with
    | nil => exact absurd rfl hne
    | cons a b => exact ⟨a, b, rfl⟩
  have h0 := isRunStop_false_props (hts t0 (by simp))
  have hskip : skipNLs (seps ++ (t0 :: ts0) ++ ⟨.newline, "\n"⟩ :: rest)
      = (t0 :: ts0) ++ ⟨.newline, "\n"⟩ :: rest := by
    induction seps with
    | nil =>
        simp only [List.nil_append, List.cons_append]
        exact skipNLs_cons_stay t0 _ h0.1 h0.2.2
    | cons s seps2 ihs =>
        simp only [List.cons_append] at ihs ⊢
        rw [skipNLs_cons_skip s _ (hseps s (by simp))]
        exact ihs (fun u hu => hseps u (by simp [hu]))
  have hsplit := collectRunParts_split (t0 :: ts0).length (t0 :: ts0)
    (le_refl _) ⟨.newline, "\n"⟩ rest hts rfl
  simp only [parseRunStmt, hskip, hsplit.1]

/-- C3 amended, witness: after `run`, a leading newline is skipped and the
tokens `echo hi` of the following line are consumed up to the next
newline; the trailing tokens stay unconsumed. -/
theorem nlps_C3_run_scope_witness :
    isRunStop ⟨.identifier, "echo"⟩ = false
    ∧ isRunStop ⟨.identifier, "hi"⟩ = false
    ∧ parseRunStmt [⟨.newline, "\n"⟩, ⟨.identifier, "echo"⟩,
        ⟨.identifier, "hi"⟩, ⟨.newline, "\n"⟩, ⟨.identifier, "later"⟩]
      = (.runCommand (createStringLiteral "echo hi"),
         [⟨.newline, "\n"⟩, ⟨.identifier, "later"⟩]) := by
  refine ⟨by decide, by decide, ?_⟩
  have h := nlps_C3_run_scope [⟨.newline, "\n"⟩]
    [⟨.identifier, "echo"⟩, ⟨.identifier, "hi"⟩] [⟨.identifier, "later"⟩]
    (by intro t ht; simp at ht; rw [ht]; exact Or.inl rfl)
    (by intro t ht; simp at ht; rcases ht with h | h <;> rw [h] <;> rfl)
    (by simp)
  simpa using h

/-- C4: the resolution order of a string-interpolation span name, as
implemented by the `StringLiteral` case of `Interpreter.evaluate`:
evaluating a `StringLiteral` applies `resolveSpanText` to every recorded
span (first conjunct), and `resolveSpanText` resolves `@`, then `#`, then
all-digit names as 1-based positional arguments (empty when out of range,
regardless of any bound variable), then bound variables (stringified),
then the five special variables, and otherwise leaves the literal
`${name}` text. -/
theorem nlps_C4_interp_resolution (st : InterpState) :
    (∀ (v : String) (sp : List (Nat × Nat × String)) (f : Nat),
        evaluate (f + 1) st (.stringLit v sp)
          = .ok (.str (applyInterpolationsRaw st v sp)) st)
  ∧ resolveSpanText st "@" = String.intercalate " " st.args
  ∧ resolveSpanText st "#" = toString st.args.length
  ∧ (∀ name, isAllDigits name = true →
      resolveSpanText st name =
        (if 1 ≤ digitsToNat name ∧ digitsToNat name ≤ st.args.length
         then st.args.getD (digitsToNat name - 1) "" else ""))
  ∧ (∀ name v, isAllDigits name = false → name ≠ "@" → name ≠ "#" →
      getk st.vars name = some v → resolveSpanText st name = pyStr v)
  ∧ (∀ name s, isAllDigits name = false → name ≠ "@" → name ≠ "#" →
      getk st.vars name = Option.none → getSpecialVar st name = some s →
      resolveSpanText st name = s)
  ∧ (∀ name, isAllDigits name = false → name ≠ "@" → name ≠ "#" →
      getk st.vars name = Option.none → getSpecialVar st name = Option.none →
      resolveSpanText st name = "$\x7b" ++ name ++ "\x7d") := by
  refine ⟨fun v sp f => rfl, rfl, rfl, ?_, ?_, ?_, ?_⟩
  · intro name hd
    have h1 : ¬ name = "@" := by rintro rfl; exact absurd hd (by decide)
    have h2 : ¬ name = "#" := by rintro rfl; exact absurd hd (by decide)
    unfold resolveSpanText
    rw [if_neg h1, if_neg h2, if_pos hd]
  · intro name v hd h1 h2 hk
    unfold resolveSpanText
    rw [if_neg h1, if_neg h2, if_neg (by simp [hd]), hk]
  · intro name s hd h1 h2 hk hs
    unfold resolveSpanText
    rw [if_neg h1, if_neg h2, if_neg (by simp [hd]), hk, hs]
  · intro name hd h1 h2 hk hs
    unfold resolveSpanText
    rw [if_neg h1, if_neg h2, if_neg (by simp [hd]), hk, hs]

/-- C4 witness: in the demo state (two arguments, no bound variables) the
out-of-range all-digit span `5` resolves to the empty string, and the
unknown span name `UNKNOWN` is left as the literal `${UNKNOWN}`. -/
theorem nlps_C4_interp_resolution_witness :
    isAllDigits "5" = true
    ∧ resolveSpanText demoState "5" = ""
    ∧ isAllDigits "UNKNOWN" = false
    ∧ resolveSpanText demoState "UNKNOWN" = "$\x7bUNKNOWN\x7d" := by
  refine ⟨by decide, ?_, by decide, ?_⟩
  · have h := (nlps_C4_interp_resolution demoState).2.2.2.1 "5" (by decide)
    rw [h]
    decide
  · have h := (nlps_C4_interp_resolution demoState).2.2.2.2.2.2 "UNKNOWN"
      (by decide) (by decide) (by decide) (by rfl) (by rfl)
    rw [h]
    rfl

/-- C8: executing `cd` evaluates the path expression (string-valued
evaluation is effect-free, `evaluate_ok_str`), resolves it against the
logical cwd, and on a missing or non-directory target raises the fatal
interpreter error with the logical cwd and the OS working directory both
exactly as before; on success both are set to the resolved path. -/
theorem nlps_C8_cd (f : Nat) (st st₁ : InterpState) (p : Expr) (s : String)
    (heval : evaluate f st p = .ok (.str s) st₁) :
    ((resolvePath st.cwd s ∉ st.fsDirs ∧ resolvePath st.cwd s ∉ st.fsFiles) →
        execStmt (f + 1) st (.cdCommand p)
          = .err ("Directory does not exist: " ++ s) st)
  ∧ ((resolvePath st.cwd s ∉ st.fsDirs ∧ resolvePath st.cwd s ∈ st.fsFiles) →
        execStmt (f + 1) st (.cdCommand p)
          = .err ("Not a directory: " ++ s) st)
  ∧ (resolvePath st.cwd s ∈ st.fsDirs →
        execStmt (f + 1) st (.cdCommand p)
          = .ok () { st with cwd := resolvePath st.cwd s,
                             osCwd := resolvePath st.cwd s }) := by
  have hp := evaluate_ok_str heval
  subst hp
  refine ⟨?_, ?_, ?_⟩
  · rintro ⟨hd, hf⟩
    simp only [execStmt, heval]
    rw [if_neg (not_or.mpr ⟨hd, hf⟩)]
  · rintro ⟨hd, hf⟩
    simp only [execStmt, heval]
    rw [if_pos (Or.inr hf), if_neg hd]
  · intro hd
    simp only [execStmt, heval]
    rw [if_pos (Or.inl hd), if_pos hd]

/-- C8 witness: in the demo state, `cd "nope"` fails fatally (the resolved
path `/work/nope` does not exist) leaving the state untouched, while
`cd "sub"` succeeds and moves both directories to `/work/sub`. -/
theorem nlps_C8_cd_witness :
    (evaluate 1 demoState (createStringLiteral "nope")
        = .ok (.str "nope") demoState)
    ∧ execStmt 2 demoState (.cdCommand (createStringLiteral "nope"))
        = .err ("Directory does not exist: " ++ "nope") demoState
    ∧ execStmt 2 demoState (.cdCommand (createStringLiteral "sub"))
        = .ok () { demoState with cwd := resolvePath demoState.cwd "sub",
                                  osCwd := resolvePath demoState.cwd "sub" } := by
  refine ⟨rfl, ?_, ?_⟩
  · exact (nlps_C8_cd 1 demoState demoState (createStringLiteral "nope")
      "nope" rfl).1 (by decide)
  · exact (nlps_C8_cd 1 demoState demoState (createStringLiteral "sub")
      "sub" rfl).2.2 (by decide)

/-- C9: positional argument evaluation never raises: for any integer index
outside `[1, len(args)]` the result is the empty string, inside the range
it is the 1-based argument; `$@` yields the full argument list and `$#`
its length. -/
theorem nlps_C9_argref (st : InterpState) (f : Nat) :
    (∀ n : Int, n < 1 ∨ n > (st.args.length : Int) →
        evaluate (f + 1) st (.argRef (.pos n)) = .ok (.str "") st)
  ∧ (∀ n : Int, 1 ≤ n → n ≤ (st.args.length : Int) →
        evaluate (f + 1) st (.argRef (.pos n))
          = .ok (.str (st.args.getD (n - 1).toNat "")) st)
  ∧ evaluate (f + 1) st (.argRef .all) = .ok (.list (st.args.map .str)) st
  ∧ evaluate (f + 1) st (.argRef .count)
      = .ok (.num (.int st.args.length)) st := by
  refine ⟨?_, ?_, rfl, rfl⟩
  · intro n hn
    simp only [evaluate]
    split_ifs with hcond
    · rfl
    · exfalso; omega
  · intro n h1 h2
    simp only [evaluate]
    split_ifs with hcond
    · exfalso; omega
    · rfl

/-- C9 witness: with two arguments, `$5` and `$0` evaluate to the empty
string and `$2` to the second argument. -/
theorem nlps_C9_argref_witness :
    ((5 : Int) < 1 ∨ (5 : Int) > (demoState.args.length : Int))
    ∧ evaluate 1 demoState (.argRef (.pos 5)) = .ok (.str "") demoState
    ∧ evaluate 1 demoState (.argRef (.pos 0)) = .ok (.str "") demoState
    ∧ evaluate 1 demoState (.argRef (.pos 2)) = .ok (.str "a2") demoState := by
  refine ⟨by decide, ?_, ?_, ?_⟩
  · exact (nlps_C9_argref demoState 0).1 5 (by decide)
  · exact (nlps_C9_argref demoState 0).1 0 (by decide)
  · have h := (nlps_C9_argref demoState 0).2.1 2 (by decide) (by decide)
    rw [h]
    rfl

/-- C7: a `parallel` block with three children, of which the middle one
fails, runs every child to completion on the shared state (the failure
cancels no sibling), does not return before all children finished, and
reports the failure exactly once — as a single error line printed after
the last child's effects — rather than raising it at the point of
failure (the block itself completes normally). -/
theorem nlps_C7_parallel_barrier (f : Nat) (st stA stB stC : InterpState)
    (s1 s2 s3 : Stmt) (m : String)
    (h1 : execStmt (f + 3) st s1 = .ok () stA)
    (h2 : execStmt (f + 2) stA s2 = .err m stB)
    (h3 : execStmt (f + 1) stB s3 = .ok () stC) :
    execStmt (f + 5) st (.parallelBlock [s1, s2, s3])
      = .ok () { stC with stdout := stC.stdout
          ++ ["[nlps] Parallel execution error: " ++ m] } := by
  have hp : parLoop (f + 4) st [s1, s2, s3] [] = some (stC, [m]) := by
    show parLoop ((f + 3) + 1) st [s1, s2, s3] [] = some (stC, [m])
    simp only [parLoop, h1]
    show parLoop ((f + 2) + 1) stA [s2, s3] [] = some (stC, [m])
    simp only [parLoop, h2]
    show parLoop ((f + 1) + 1) stB [s3] [m] = some (stC, [m])
    simp only [parLoop, h3]
  show execStmt ((f + 4) + 1) st (.parallelBlock [s1, s2, s3]) = _
  simp only [execStmt, hp]
  simp

/-- C7 witness: parallel block `[a = 1, b = $nope, fn g() {}]` over the
demo state: the failing middle child cancels neither sibling (the
assignment and the function definition both take effect), and the block
completes normally with the single error line printed last. -/
theorem nlps_C7_parallel_barrier_witness :
    (execStmt 3 demoState (.assignment "a" (.numberLit (.int 1)))
        = .ok () demoParA)
    ∧ (execStmt 2 demoParA (.assignment "b" (.varRef "nope"))
        = .err "Undefined variable: nope" demoParA)
    ∧ (execStmt 1 demoParA (.functionDef "g" [] []) = .ok () demoParC)
    ∧ execStmt 5 demoState (.parallelBlock
        [.assignment "a" (.numberLit (.int 1)),
         .assignment "b" (.varRef "nope"),
         .functionDef "g" [] []])
      = .ok () { demoParC with stdout := demoParC.stdout
          ++ ["[nlps] Parallel execution error: "
              ++ "Undefined variable: nope"] } :=
  ⟨rfl, rfl, rfl,
    nlps_C7_parallel_barrier 0 demoState demoParA demoParA demoParC
      (.assignment "a" (.numberLit (.int 1)))
      (.assignment "b" (.varRef "nope"))
      (.functionDef "g" [] []) "Undefined variable: nope" rfl rfl rfl⟩

/-- C6: for every function call that runs to its `finally` (normally or by
error, `state?` is the state at completion), the variable map is restored
exactly to the pre-call snapshot, and the environment map equals the
pre-call snapshot extended by exactly the keys absent from it, each with
the value it has in the call-exit state (`callExit`); in particular a
pre-existing key overwritten by the callee reverts. -/
theorem nlps_C6_call_scope (f : Nat) (st : InterpState) (name : String)
    (args : List Expr) (st' : InterpState)
    (h : (callFunction f st name args).state? = some st') :
    st'.vars = st.vars
    ∧ ∀ k, getk st'.environment k
        = match getk st.environment k with
          | some v => some v
          | Option.none =>
              match callExit f st name args with
              | some stE => getk stE.environment k
              | Option.none => Option.none := by
  cases f with
  | zero => simp [callFunction, Res.state?] at h
  | succ f =>
      unfold callFunction at h
      cases hk : getk st.functions name with
      | none =>
          simp only [hk, Res.state?] at h
          injection h with h
          subst h
          refine ⟨rfl, ?_⟩
          intro k
          unfold callExit
          simp only [hk]
          cases getk st.environment k <;> rfl
      | some func =>
          simp only [hk] at h
          by_cases har : args.length ≠ func.params.length
          · rw [if_pos har] at h
            simp only [Res.state?] at h
            injection h with h
            subst h
            refine ⟨rfl, ?_⟩
            intro k
            unfold callExit
            simp only [hk]
            rw [if_pos har]
            cases getk st.environment k <;> rfl
          · rw [if_neg har] at h
            cases hb : bindAndRun f st func.params args func.body with
            | nofuel => simp [hb, Res.state?] at h
            | ok u stE =>
                simp only [hb, Res.state?] at h
                injection h with h
                subst h
                refine ⟨rfl, ?_⟩
                intro k
                unfold callExit restoreScope
                simp only [hk]
                rw [if_neg har, hb]
                rw [getk_append_eq]
                cases hek : getk st.environment k with
                | some v => rfl
                | none =>
                    show getk (stE.environment.filter
                        fun kv => (getk st.environment kv.1).isNone) k
                      = getk stE.environment k
                    exact getk_filter_missing _ _ _ hek
            | err m stE =>
                simp only [hb, Res.state?] at h
                injection h with h
                subst h
                refine ⟨rfl, ?_⟩
                intro k
                unfold callExit restoreScope
                simp only [hk]
                rw [if_neg har, hb]
                rw [getk_append_eq]
                cases hek : getk st.environment k with
                | some v => rfl
                | none =>
                    show getk (stE.environment.filter
                        fun kv => (getk st.environment kv.1).isNone) k
                      = getk stE.environment k
                    exact getk_filter_missing _ _ _ hek

/-- C6 witness: calling `g0(5)` in `demoCallState` restores the (empty)
variable map and keeps the two environment keys the call introduced. -/
theorem nlps_C6_call_scope_witness :
    ((callFunction 10 demoCallState "g0"
        [Expr.numberLit (NumVal.int 5)]).state? = some demoCallOut)
    ∧ demoCallOut.vars = demoCallState.vars
    ∧ getk demoCallState.environment "G" = Option.none
    ∧ getk demoCallOut.environment "G" = some "1" :=
  ⟨rfl,
    (nlps_C6_call_scope 10 demoCallState "g0"
      [Expr.numberLit (NumVal.int 5)] demoCallOut rfl).1,
    rfl, rfl⟩

/-- C5: for every interpreter state and every string literal as built by
`create_string_literal` (raw text plus the spans `re.finditer` records),
substituting in descending-offset order — the implemented strategy —
yields exactly the same string as the naive left-to-right pass that
shifts offsets by the accumulated replacement-length differences. -/
theorem nlps_C5_desc_eq_naive (st : InterpState) (s : String) :
    applyInterpolationsRaw st s (findInterps (s.data.length + 1) s.data 0)
      = applyInterpolationsNaive st s
          (findInterps (s.data.length + 1) s.data 0) := by
  unfold applyInterpolationsRaw applyInterpolationsNaive
  congr 1
  refine substDesc_eq_naiveLR _ _ _ ?_
  have h := findInterps_wf (s.data.length + 1) s.data (by omega) 0
  simpa using h

theorem envMono_refl (s : InterpState) : EnvMono s s := fun _ hk => hk

theorem envMono_trans {a b c : InterpState} (h1 : EnvMono a b)
    (h2 : EnvMono b c) : EnvMono a c := fun k hk => h2 k (h1 k hk)

theorem envMono_restore (oldVars : List (String × Value))
    (oldEnv : List (String × String)) (stE st : InterpState)
    (h : st.environment = oldEnv) :
    EnvMono st (restoreScope oldVars oldEnv stE) := by
  intro k hk
  rw [h] at hk
  exact getk_append_isSome _ _ _ hk

theorem stepEnvMono : ∀ f : Nat,
    (∀ st e st', (evaluate f st e).state? = some st' → EnvMono st st')
  ∧ (∀ st es st', (evalList f st es).state? = some st' → EnvMono st st')
  ∧ (∀ st s st', (execStmt f st s).state? = some st' → EnvMono st st')
  ∧ (∀ st ss st', (execStmts f st ss).state? = some st' → EnvMono st st')
  ∧ (∀ st v xs body st',
      (forIter f st v xs body).state? = some st' → EnvMono st st')
  ∧ (∀ st ss errs st₁ errs2,
      parLoop f st ss errs = some (st₁, errs2) → EnvMono st st₁)
  ∧ (∀ st name args st',
      (callFunction f st name args).state? = some st' → EnvMono st st') := by
  intro f
  induction f with
  | zero =>
      refine ⟨?_, ?_, ?_, ?_, ?_, ?_, ?_⟩
      · intro st e st' h; simp [evaluate, Res.state?] at h
      · intro st es st' h; simp [evalList, Res.state?] at h
      · intro st s st' h; simp [execStmt, Res.state?] at h
      · intro st ss st' h; simp [execStmts, Res.state?] at h
      · intro st v xs body st' h; simp [forIter, Res.state?] at h
      · intro st ss errs st₁ errs2 h; simp [parLoop] at h
      · intro st name args st' h; simp [callFunction, Res.state?] at h
  | succ f ih =>
      obtain ⟨ihEV, ihEL, ihST, ihSS, ihFI, ihPL, ihCF⟩ := ih
      refine ⟨?_, ?_, ?_, ?_, ?_, ?_, ?_⟩
      · intro st e st' h
        cases e with
        | stringLit v interps =>
            simp only [evaluate, Res.state?, Option.some.injEq] at h
            subst h; exact envMono_refl _
        | numberLit n =>
            simp only [evaluate, Res.state?, Option.some.injEq] at h
            subst h; exact envMono_refl _
        | boolLit b =>
            simp only [evaluate, Res.state?, Option.some.injEq] at h
            subst h; exact envMono_refl _
        | varRef name =>
            simp only [evaluate] at h
            cases hg : getk st.vars name with
            | some v =>
                simp only [hg, Res.state?, Option.some.injEq] at h
                subst h; exact envMono_refl _
            | none =>
                simp only [hg, Res.state?, Option.some.injEq] at h
                subst h; exact envMono_refl _
        | specialVarRef name =>
            simp only [evaluate] at h
            cases hg : getSpecialVar st name with
            | some v =>
                simp only [hg, Res.state?, Option.some.injEq] at h
                subst h; exact envMono_refl _
            | none =>
                simp only [hg, Res.state?, Option.some.injEq] at h
                subst h; exact envMono_refl _
        | argRef ix =>
            simp only [evaluate] at h
            cases ix with
            | all =>
                simp only [Res.state?, Option.some.injEq] at h
                subst h; exact envMono_refl _
            | count =>
                simp only [Res.state?, Option.some.injEq] at h
                subst h; exact envMono_refl _
            | pos n =>
                split at h
                all_goals try split at h
                all_goals simp only [Res.state?, Option.some.injEq] at h
                all_goals subst h
                all_goals exact envMono_refl _
        | comparison l op r =>
            simp only [evaluate] at h
            cases hl : evaluate f st l with
            | ok lv st₁ =>
                simp only [hl] at h
                have m1 := ihEV st l st₁ (by rw [hl]; rfl)
                cases hr : evaluate f st₁ r with
                | ok rv st₂ =>
                    simp only [hr] at h
                    have m2 := ihEV st₁ r st₂ (by rw [hr]; rfl)
                    cases hc : evalCompare op lv rv with
                    | ok v =>
                        simp only [hc, Res.state?, Option.some.injEq] at h
                        subst h; exact envMono_trans m1 m2
                    | error m =>
                        simp only [hc, Res.state?, Option.some.injEq] at h
                        subst h; exact envMono_trans m1 m2
                | err m st₂ =>
                    simp only [hr, Res.state?, Option.some.injEq] at h
                    subst h
                    exact envMono_trans m1 (ihEV st₁ r st₂ (by rw [hr]; rfl))
                | nofuel => simp [hr, Res.state?] at h
            | err m st₁ =>
                simp only [hl, Res.state?, Option.some.injEq] at h
                subst h
                exact ihEV st l st₁ (by rw [hl]; rfl)
            | nofuel => simp [hl, Res.state?] at h
        | arrayLit es =>
            simp only [evaluate] at h
            cases he : evalList f st es with
            | ok vs st₁ =>
                simp only [he, Res.state?, Option.some.injEq] at h
                subst h; exact ihEL st es st₁ (by rw [he]; rfl)
            | err m st₁ =>
                simp only [he, Res.state?, Option.some.injEq] at h
                subst h; exact ihEL st es st₁ (by rw [he]; rfl)
            | nofuel => simp [he, Res.state?] at h
        | functionCall name args =>
            simp only [evaluate] at h
            exact ihCF st name args st' h
      · intro st es st' h
        cases es with
        | nil =>
            simp only [evalList, Res.state?, Option.some.injEq] at h
            subst h; exact envMono_refl _
        | cons e es2 =>
            simp only [evalList] at h
            cases he : evaluate f st e with
            | ok v st₁ =>
                simp only [he] at h
                have m1 := ihEV st e st₁ (by rw [he]; rfl)
                cases hes : evalList f st₁ es2 with
                | ok vs st₂ =>
                    simp only [hes, Res.state?, Option.some.injEq] at h
                    subst h
                    exact envMono_trans m1 (ihEL st₁ es2 st₂ (by rw [hes]; rfl))
                | err m st₂ =>
                    simp only [hes, Res.state?, Option.some.injEq] at h
                    subst h
                    exact envMono_trans m1 (ihEL st₁ es2 st₂ (by rw [hes]; rfl))
                | nofuel => simp [hes, Res.state?] at h
            | err m st₁ =>
                simp only [he, Res.state?, Option.some.injEq] at h
                subst h; exact ihEV st e st₁ (by rw [he]; rfl)
            | nofuel => simp [he, Res.state?] at h
      · intro st s st' h
        cases s with
        | assignment name value =>
            simp only [execStmt] at h
            cases hv : evaluate f st value with
            | ok v st₁ =>
                simp only [hv, Res.state?, Option.some.injEq] at h
                subst h
                refine envMono_trans (ihEV st value st₁ (by rw [hv]; rfl)) ?_
                intro k hk
                exact getk_setk_isSome _ _ _ _ hk
            | err m st₁ =>
                simp only [hv, Res.state?, Option.some.injEq] at h
                subst h; exact ihEV st value st₁ (by rw [hv]; rfl)
            | nofuel => simp [hv, Res.state?] at h
        | runCommand command =>
            simp only [execStmt] at h
            cases hv : evaluate f st command with
            | ok v st₁ =>
                simp only [hv, Res.state?, Option.some.injEq] at h
                subst h; exact ihEV st command st₁ (by rw [hv]; rfl)
            | err m st₁ =>
                simp only [hv, Res.state?, Option.some.injEq] at h
                subst h; exact ihEV st command st₁ (by rw [hv]; rfl)
            | nofuel => simp [hv, Res.state?] at h
        | cdCommand path =>
            simp only [execStmt] at h
            cases hv : evaluate f st path with
            | ok v st₁ =>
                simp only [hv] at h
                have m1 := ihEV st path st₁ (by rw [hv]; rfl)
                cases v with
                | str p =>
                    split at h
                    all_goals try split at h
                    all_goals try split at h
                    all_goals simp only [Res.state?, Option.some.injEq] at h
                    all_goals subst h
                    all_goals exact fun k hk => m1 k hk
                | num n =>
                    simp only [Res.state?, Option.some.injEq] at h
                    subst h; exact m1
                | bool b =>
                    simp only [Res.state?, Option.some.injEq] at h
                    subst h; exact m1
                | list l =>
                    simp only [Res.state?, Option.some.injEq] at h
                    subst h; exact m1
                | none =>
                    simp only [Res.state?, Option.some.injEq] at h
                    subst h; exact m1
            | err m st₁ =>
                simp only [hv, Res.state?, Option.some.injEq] at h
                subst h; exact ihEV st path st₁ (by rw [hv]; rfl)
            | nofuel => simp [hv, Res.state?] at h
        | ifStatement cond thenBlock elseBlock =>
            simp only [execStmt] at h
            cases hv : evaluate f st cond with
            | ok v st₁ =>
                simp only [hv] at h
                have m1 := ihEV st cond st₁ (by rw [hv]; rfl)
                split at h
                · exact envMono_trans m1 (ihSS st₁ thenBlock st' h)
                · cases elseBlock with
                  | some blk =>
                      exact envMono_trans m1 (ihSS st₁ blk st' h)
                  | none =>
                      simp only [Res.state?, Option.some.injEq] at h
                      subst h; exact m1
            | err m st₁ =>
                simp only [hv, Res.state?, Option.some.injEq] at h
                subst h; exact ihEV st cond st₁ (by rw [hv]; rfl)
            | nofuel => simp [hv, Res.state?] at h
        | forLoop varName iterable body =>
            simp only [execStmt] at h
            cases hv : evaluate f st iterable with
            | ok v st₁ =>
                simp only [hv] at h
                have m1 := ihEV st iterable st₁ (by rw [hv]; rfl)
                cases v with
                | list xs =>
                    exact envMono_trans m1 (ihFI st₁ varName xs body st' h)
                | str p =>
                    simp only [Res.state?, Option.some.injEq] at h
                    subst h; exact m1
                | num n =>
                    simp only [Res.state?, Option.some.injEq] at h
                    subst h; exact m1
                | bool b =>
                    simp only [Res.state?, Option.some.injEq] at h
                    subst h; exact m1
                | none =>
                    simp only [Res.state?, Option.some.injEq] at h
                    subst h; exact m1
            | err m st₁ =>
                simp only [hv, Res.state?, Option.some.injEq] at h
                subst h; exact ihEV st iterable st₁ (by rw [hv]; rfl)
            | nofuel => simp [hv, Res.state?] at h
        | functionDef name params body =>
            simp only [execStmt, Res.state?, Option.some.injEq] at h
            subst h; exact fun k hk => hk
        | functionCallStmt name args =>
            simp only [execStmt] at h
            cases hc : callFunction f st name args with
            | ok v st₁ =>
                simp only [hc, Res.state?, Option.some.injEq] at h
                subst h; exact ihCF st name args st₁ (by rw [hc]; rfl)
            | err m st₁ =>
                simp only [hc, Res.state?, Option.some.injEq] at h
                subst h; exact ihCF st name args st₁ (by rw [hc]; rfl)
            | nofuel => simp [hc, Res.state?] at h
        | osBlock osName body =>
            simp only [execStmt] at h
            split at h
            · exact ihSS st body st' h
            · simp only [Res.state?, Option.some.injEq] at h
              subst h; exact envMono_refl _
        | parallelBlock body =>
            simp only [execStmt] at h
            cases hp : parLoop f st body [] with
            | some pr =>
                obtain ⟨st₁, errs⟩ := pr
                simp only [hp, Res.state?, Option.some.injEq] at h
                subst h
                exact fun k hk => ihPL st body [] st₁ errs (by rw [hp]) k hk
            | none => simp [hp, Res.state?] at h
      · intro st ss st' h
        cases ss with
        | nil =>
            simp only [execStmts, Res.state?, Option.some.injEq] at h
            subst h; exact envMono_refl _
        | cons s rest =>
            simp only [execStmts] at h
            cases hs : execStmt f st s with
            | ok u st₁ =>
                simp only [hs] at h
                exact envMono_trans (ihST st s st₁ (by rw [hs]; rfl))
                  (ihSS st₁ rest st' h)
            | err m st₁ =>
                simp only [hs, Res.state?, Option.some.injEq] at h
                subst h; exact ihST st s st₁ (by rw [hs]; rfl)
            | nofuel => simp [hs, Res.state?] at h
      · intro st v xs body st' h
        cases xs with
        | nil =>
            simp only [forIter, Res.state?, Option.some.injEq] at h
            subst h; exact envMono_refl _
        | cons x rest =>
            simp only [forIter] at h
            have m0 : EnvMono st { st with
                vars := setk st.vars v x,
                environment := setk st.environment v (pyStr x) } :=
              fun k hk => getk_setk_isSome _ _ _ k hk
            cases hs : execStmts f { st with
                vars := setk st.vars v x,
                environment := setk st.environment v (pyStr x) } body with
            | ok u st₁ =>
                simp only [hs] at h
                exact envMono_trans m0
                  (envMono_trans (ihSS _ body st₁ (by rw [hs]; rfl))
                    (ihFI st₁ v rest body st' h))
            | err m st₁ =>
                simp only [hs, Res.state?, Option.some.injEq] at h
                subst h
                exact envMono_trans m0 (ihSS _ body st₁ (by rw [hs]; rfl))
            | nofuel => simp [hs, Res.state?] at h
      · intro st ss errs st₁ errs2 h
        cases ss with
        | nil =>
            simp only [parLoop, Option.some.injEq, Prod.mk.injEq] at h
            obtain ⟨h1, h2⟩ := h
            subst h1; exact envMono_refl _
        | cons s rest =>
            simp only [parLoop] at h
            cases hs : execStmt f st s with
            | ok u stm =>
                simp only [hs] at h
                exact envMono_trans (ihST st s stm (by rw [hs]; rfl))
                  (ihPL stm rest errs st₁ errs2 h)
            | err m stm =>
                simp only [hs] at h
                exact envMono_trans (ihST st s stm (by rw [hs]; rfl))
                  (ihPL stm rest (errs ++ [m]) st₁ errs2 h)
            | nofuel => simp [hs] at h
      · intro st name args st' h
        simp only [callFunction] at h
        cases hg : getk st.functions name with
        | none =>
            simp only [hg, Res.state?, Option.some.injEq] at h
            subst h; exact envMono_refl _
        | some func =>
            simp only [hg] at h
            split at h
            · simp only [Res.state?, Option.some.injEq] at h
              subst h; exact envMono_refl _
            · cases hb : bindAndRun f st func.params args func.body with
              | ok u stE =>
                  simp only [hb, Res.state?, Option.some.injEq] at h
                  subst h
                  exact envMono_restore st.vars st.environment stE st rfl
              | err m stE =>
                  simp only [hb, Res.state?, Option.some.injEq] at h
                  subst h
                  exact envMono_restore st.vars st.environment stE st rfl
              | nofuel => simp [hb, Res.state?] at h

/-- C10: the interpreter's environment map starts as a copy of the host
process environment (`Interpreter.__init__` sets
`self.environment = os.environ.copy()`), and its key set never shrinks:
whenever `execute_statement` finishes — normally or with a propagating
error — every key present in the environment before the statement is still
present after it.  Assignment, for-loop binding and parameter binding only
add or overwrite keys, and the post-call restore of `call_function` keeps
every snapshot key while re-adding the keys the call introduced. -/
theorem nlps_C10_env_keys (sd : String) (args : List String)
    (hostEnv : List (String × String)) (cwd home : String)
    (host : HostOS) (fd ffs : List String)
    (f : Nat) (st st' : InterpState) (s : Stmt)
    (h : (execStmt f st s).state? = some st') :
    (initState sd args hostEnv cwd home host fd ffs).environment = hostEnv
    ∧ EnvMono st st' :=
  ⟨rfl, (stepEnvMono f).2.2.1 st s st' h⟩

/-- C10 witness: executing the assignment `X = 7` from `demoState` adds
the key `X` to the environment and keeps `PATH` and `LANG`; the freshly
constructed state carries exactly the host environment. -/
theorem nlps_C10_env_keys_witness :
    ((execStmt 5 demoState (.assignment "X" (.numberLit (.int 7)))).state?
        = some { demoState with
            vars := [("X", Value.num (.int 7))],
            environment := [("PATH", "/usr/bin"), ("LANG", "C"), ("X", "7")] })
    ∧ (initState "/home/u/scripts" ["a1", "a2"]
          [("PATH", "/usr/bin"), ("LANG", "C")] "/work" "/home/u" .unix
          ["/", "/work", "/work/sub", "/home", "/home/u"]
          ["/work/file.txt"]).environment
        = [("PATH", "/usr/bin"), ("LANG", "C")]
    ∧ EnvMono demoState { demoState with
        vars := [("X", Value.num (.int 7))],
        environment := [("PATH", "/usr/bin"), ("LANG", "C"), ("X", "7")] } := by
  refine ⟨rfl, ?_, ?_⟩
  · exact (nlps_C10_env_keys "/home/u/scripts" ["a1", "a2"]
      [("PATH", "/usr/bin"), ("LANG", "C")] "/work" "/home/u" .unix
      ["/", "/work", "/work/sub", "/home", "/home/u"] ["/work/file.txt"]
      5 demoState { demoState with
        vars := [("X", Value.num (.int 7))],
        environment := [("PATH", "/usr/bin"), ("LANG", "C"), ("X", "7")] }
      (.assignment "X" (.numberLit (.int 7))) rfl).1
  · exact (nlps_C10_env_keys "/home/u/scripts" ["a1", "a2"]
      [("PATH", "/usr/bin"), ("LANG", "C")] "/work" "/home/u" .unix
      ["/", "/work", "/work/sub", "/home", "/home/u"] ["/work/file.txt"]
      5 demoState { demoState with
        vars := [("X", Value.num (.int 7))],
        environment := [("PATH", "/usr/bin"), ("LANG", "C"), ("X", "7")] }
      (.assignment "X" (.numberLit (.int 7))) rfl).2

end NLPS
